import Mathlib

/-
Verification of the pyGecko GC analysis core against its specification.

The two source files under study are
  pygecko/analysis/analysis.py            (matching & quantification orchestrator)
  pygecko/gc_tools/peak/peak_detection_ms.py  (MS peak detection pipeline)

Modelling conventions:
* Python floats are modelled as rationals (ℚ); `np.nan` is modelled by an
  explicit sentinel constructor.
* Python dicts are modelled as insertion-ordered association lists with
  Python assignment semantics (replace-in-place when the key is present,
  append otherwise).
* Fallible Python code (KeyError, NameError, ValueError, TypeError) is
  modelled in the `Except String` monad; dict access that may raise
  KeyError is modelled with `Option`.
* External collaborators (scipy.signal.find_peaks, scipy.integrate.simpson,
  sequences, layouts) are modelled as parameters or function-valued
  structure fields, exactly at the interface the source consumes.
-/

namespace PyGecko

/-- A Python dict modelled as an insertion-ordered association list. -/
abbrev PyDict (α β : Type) : Type := List (α × β)

/-- Python dict read `d[k]`, returning `none` in the KeyError case. -/
def pyGet? {α β : Type} [DecidableEq α] : PyDict α β → α → Option β
  | [], _ => none
  | (k1, v) :: rest, k => if k1 = k then some v else pyGet? rest k

/-- Python dict assignment `d[k] = v`: replace in place when the key is
present (keys are unique in any dict built this way, so replacing the first
occurrence is exact Python semantics), append at the end otherwise. -/
def pySet {α β : Type} [DecidableEq α] : PyDict α β → α → β → PyDict α β
  | [], k, v => [(k, v)]
  | (k1, v1) :: rest, k, v =>
    if k1 = k then (k, v) :: rest else (k1, v1) :: pySet rest k v

/-- The keys of a Python dict, in insertion order. -/
def pyKeys {α β : Type} (d : PyDict α β) : List α := d.map Prod.fst

/-- Decidable equality for Except results, used to evaluate the model on
concrete plates. -/
instance {ε α : Type} [DecidableEq ε] [DecidableEq α] : DecidableEq (Except ε α) := fun
  | Except.ok a, Except.ok b =>
    if h : a = b then isTrue (by rw [h]) else isFalse (fun hc => h (Except.ok.inj hc))
  | Except.error e, Except.error f =>
    if h : e = f then isTrue (by rw [h]) else isFalse (fun hc => h (Except.error.inj hc))
  | Except.ok _, Except.error _ => isFalse (fun hc => Except.noConfusion hc)
  | Except.error _, Except.ok _ => isFalse (fun hc => Except.noConfusion hc)

/-! ## The MS-only qualitative classification (Analysis.__ms_quantify, lines 287-297)

The source classifies with a chain of `if`/`elif` whose final arm is
`elif product_ratio < 5`; over a linear order the five guards are exhaustive,
so the chain is modelled as nested `if`/`else`. -/

/-- Qualitative classification of a product ratio, from
Analysis.__ms_quantify lines 288-297. -/
def classify (r : ℚ) : String :=
  if r ≥ 70 then "excellent"
  else if r ≥ 50 then "good"
  else if r ≥ 20 then "fair"
  else if r ≥ 5 then "poor"
  else "trace"

/-! ## Orchestrator data model (external collaborators, spec section 6)

Sequences, injections and layouts are excluded collaborators; they are
modelled exactly at the interface `analysis.py` consumes: function-valued
fields for `match_mol`, `match_ri`, `quantify`, `get_product`,
`get_substrate`. -/

/-- An analyte resolved from the layout: identifying label (smiles) and mass. -/
structure Analyte where
  label : String
  mz : ℚ
deriving DecidableEq

/-- An MS peak as the orchestrator sees it: retention index, retention time,
height, area, an optional flag attribute (hasattr modelled by Option), and the
analyte attached by matching. -/
structure MSPeak where
  ri : ℚ
  rt : ℚ
  height : ℚ
  area : ℚ
  flag : Option String
  analyte : Analyte
deriving DecidableEq

/-- A peak returned by FID retention-index matching. -/
structure FIDMatch where
  rt : ℚ
deriving DecidableEq

/-- An MS injection: sample name, plate position, RT-keyed peak collection,
and the external m/z matching operation. -/
structure MSInjection where
  sample_name : String
  plate_position : String
  peaks : PyDict ℚ MSPeak
  match_mol : Analyte → Option MSPeak

/-- A FID injection: the external retention-index confirmation and
quantification operations. -/
structure FIDInjection where
  match_ri : ℚ → Analyte → Option FIDMatch
  quantify : ℚ → ℚ

/-- The plate layout: expected product and indexed substrates per well,
plus the declared array shape (rows, columns). -/
structure Layout where
  get_product : String → Analyte
  get_substrate : String → ℕ → Analyte
  shape : ℕ × ℕ

/-- A float-valued result cell; `nan` models the np.nan sentinel. -/
inductive FloatVal where
  | num (q : ℚ)
  | nan
deriving DecidableEq

/-- The quantity cell of a well result: a numeric percentage, a qualitative
class label, or the np.nan sentinel. -/
inductive Quantity where
  | num (q : ℚ)
  | cls (s : String)
  | nan
deriving DecidableEq

/-- One well's result row `[quantity, rt_ms, rt_fid, analyte]`; the analyte
slot holds the resolved analyte, or `none` for the empty-string sentinel. -/
structure ResultRow where
  quantity : Quantity
  rt_ms : FloatVal
  rt_fid : FloatVal
  analyte : Option Analyte
deriving DecidableEq

/-- The missing-value row `[np.nan, np.nan, np.nan, empty string]`. -/
def nanRow : ResultRow := ⟨Quantity.nan, FloatVal.nan, FloatVal.nan, none⟩

/-! ## Cross-modality orchestrator (Analysis.__match_and_quantify, lines 97-135) -/

/-- Analyte resolution in Analysis.__match_and_quantify lines 117-121: two
consecutive plain `if` statements (not `elif`, no `else`); when the mode string
is neither "yield" nor "conv" the Python local `analyte` is never bound and its
first use raises NameError, modelled by `none`. -/
def resolve_analyte (layout : Layout) (mode : String) (index : ℕ) (pos : String) :
    Option Analyte :=
  let a1 : Option Analyte := if mode = "yield" then some (layout.get_product pos) else none
  if mode = "conv" then some (layout.get_substrate pos index) else a1

/-- One iteration of the loop in Analysis.__match_and_quantify (lines
114-134): FID injection lookup by sample name, analyte resolution, m/z match,
retention-index confirmation, quantification with the conversion complement,
and the NaN row on either failed match. Returns the (position, row) pair that
the iteration writes into the result dict. -/
def match_well (fid_sequence : PyDict String FIDInjection) (layout : Layout) (mode : String)
    (index : ℕ) (name : String) (inj : MSInjection) : Except String (String × ResultRow) :=
  match pyGet? fid_sequence name with
  | none => Except.error "KeyError"
  | some fid =>
    match resolve_analyte layout mode index inj.plate_position with
    | none => Except.error "NameError"
    | some analyte =>
      match inj.match_mol analyte with
      | some mz =>
        match fid.match_ri mz.ri mz.analyte with
        | some ri =>
          Except.ok (inj.plate_position,
            ⟨Quantity.num (if mode = "conv" then 100 - fid.quantify ri.rt
                           else fid.quantify ri.rt),
             FloatVal.num mz.rt, FloatVal.num ri.rt, some analyte⟩)
        | none => Except.ok (inj.plate_position, nanRow)
      | none => Except.ok (inj.plate_position, nanRow)

/-- The loop of Analysis.__match_and_quantify, written as explicit recursion
over the (name, injection) items of the MS sequence. -/
def mq_fold (fid_sequence : PyDict String FIDInjection) (layout : Layout) (mode : String)
    (index : ℕ) : List (String × MSInjection) → PyDict String ResultRow →
    Except String (PyDict String ResultRow)
  | [], d => Except.ok d
  | nv :: rest, d =>
    match match_well fid_sequence layout mode index nv.1 nv.2 with
    | Except.ok r => mq_fold fid_sequence layout mode index rest (pySet d r.1 r.2)
    | Except.error e => Except.error e

/-- Analysis.__match_and_quantify: per-well results dict for the whole plate. -/
def match_and_quantify (ms_sequence : List (String × MSInjection))
    (fid_sequence : PyDict String FIDInjection) (layout : Layout) (mode : String)
    (index : ℕ) : Except String (PyDict String ResultRow) :=
  mq_fold fid_sequence layout mode index ms_sequence []

/-! ## MS-only orchestrator (Analysis.__ms_quantify, lines 233-305) -/

/-- Models `getattr(peak, ms_quantification_mode)`. The orchestrator is only
ever called with the strings "height" or "area" (the public entry point fixes
"area"); any other string would raise AttributeError in Python. -/
def getAttr (p : MSPeak) (m : String) : ℚ :=
  if m = "height" then p.height else p.area

/-- First peak of the injection flagged as the internal standard
(Analysis.__ms_quantify lines 275-279). -/
def find_standard (inj : MSInjection) : Option MSPeak :=
  (inj.peaks.map Prod.snd).find? (fun p => decide (p.flag = some "standard"))

/-- Sum of height-or-area over every peak in the injection
(Analysis.__ms_quantify line 270). -/
def total_attr (inj : MSInjection) (m : String) : ℚ :=
  ((inj.peaks.map Prod.snd).map (fun p => getAttr p m)).sum

/-- Analyte resolution in Analysis.__ms_quantify lines 256-262: `if` /
`elif` / `else raise ValueError` — unlike the cross-modality orchestrator,
an unknown mode string here raises a fatal configuration error. -/
def resolve_analyte_ms (layout : Layout) (mode : String) (index : ℕ) (pos : String) :
    Except String Analyte :=
  if mode = "yield" then Except.ok (layout.get_product pos)
  else if mode = "conv" then Except.ok (layout.get_substrate pos index)
  else Except.error "ValueError"

/-- One iteration of the loop in Analysis.__ms_quantify (lines 254-304).

The state carries the result dict together with the binding of the Python
local `product_ratio`, which survives across loop iterations: `none` means the
variable has never been assigned. When `relative_to = "standard"` and no
standard-flagged peak exists, the source prints a diagnostic and falls
through to the classification, which reads `product_ratio` — a NameError if it
was never bound, or a stale value from an earlier iteration otherwise. In
conversion mode the source computes `100 - yield_` where `yield_` is the
qualitative class string, a TypeError. An unknown mode string raises
ValueError (line 262). -/
def ms_quantify_step (layout : Layout) (mode msqm relto : String) (index : ℕ)
    (st : PyDict String ResultRow × Option ℚ) (inj : MSInjection) :
    Except String (PyDict String ResultRow × Option ℚ) :=
  match resolve_analyte_ms layout mode index inj.plate_position with
  | Except.error e => Except.error e
  | Except.ok analyte =>
    match inj.match_mol analyte with
    | some mz =>
      let pr? : Option ℚ :=
        if relto = "all" then some (getAttr mz msqm / total_attr inj msqm * 100)
        else if relto = "standard" then
          match find_standard inj with
          | some s => some (getAttr mz msqm / getAttr s msqm * 100)
          | none => st.2
        else st.2
      match pr? with
      | none => Except.error "NameError"
      | some pr =>
        if mode = "conv" then Except.error "TypeError"
        else Except.ok
          (pySet st.1 inj.plate_position
            ⟨Quantity.cls (classify pr), FloatVal.num mz.rt, FloatVal.nan, some analyte⟩,
           some pr)
    | none => Except.ok (pySet st.1 inj.plate_position nanRow, st.2)

/-- The loop of Analysis.__ms_quantify, as explicit recursion over the
(name, injection) items of the MS sequence. -/
def msq_fold (layout : Layout) (mode msqm relto : String) (index : ℕ) :
    List (String × MSInjection) → PyDict String ResultRow × Option ℚ →
    Except String (PyDict String ResultRow × Option ℚ)
  | [], st => Except.ok st
  | nv :: rest, st =>
    match ms_quantify_step layout mode msqm relto index st nv.2 with
    | Except.ok st2 => msq_fold layout mode msqm relto index rest st2
    | Except.error e => Except.error e

/-- Analysis.__ms_quantify: per-well MS-only results dict for the whole plate. -/
def ms_quantify (ms_sequence : List (String × MSInjection)) (layout : Layout)
    (mode msqm relto : String) (index : ℕ) : Except String (PyDict String ResultRow) :=
  match msq_fold layout mode msqm relto index ms_sequence ([], none) with
  | Except.ok st => Except.ok st.1
  | Except.error e => Except.error e

/-- The plate-shaped outcome of the MS-only plate computation: alphabetic row
labels from A, column numbers from 1 (Analysis.__ms_only_quantify_plate lines
204-207), and the per-well results dict. The conversion of the dict into a
numpy structured array and the optional CSV report are presentation-only and
not modelled. -/
structure PlateResult where
  rows : List Char
  cols : List ℕ
  results : PyDict String ResultRow
deriving DecidableEq

/-- Analysis.__ms_only_quantify_plate: dynamic plate sizing from the layout
shape plus the MS-only per-well results. -/
def ms_only_quantify_plate (ms_sequence : List (String × MSInjection)) (layout : Layout)
    (mode : String) (index : ℕ) (msqm relto : String) : Except String PlateResult :=
  match ms_quantify ms_sequence layout mode msqm relto index with
  | Except.ok d =>
    Except.ok ⟨(List.range layout.shape.1).map (fun i => Char.ofNat (65 + i)),
               (List.range layout.shape.2).map (fun i => i + 1), d⟩
  | Except.error e => Except.error e

/-- Analysis.calc_plate_ms_only_yield (lines 166-183): the public MS-only
entry point, which fixes mode = yield, ms_quantification_mode = area and
relative_to = standard. -/
def calc_plate_ms_only_yield (ms_sequence : List (String × MSInjection)) (layout : Layout) :
    Except String PlateResult :=
  ms_only_quantify_plate ms_sequence layout "yield" 0 "area" "standard"

/-! ## Refinement target for C10

A second definition following claim C10's words rather than the source: the
MS-only computation specialised to yield mode, area-based quantification and
the internal-standard reference, with the conversion-complement, height, and
relative-to-all branches simply absent. The missing-standard fall-through of
the source is retained unchanged (claim C2 covers that defect). -/

/-- Per-well step of the claimed fixed specialization of the MS-only
computation: product analyte, m/z match, ratio of areas against the first
standard-flagged peak, qualitative classification; no conversion complement,
no height-based quantification, no relative-to-all reference. -/
def ms_yield_area_standard_step (layout : Layout)
    (st : PyDict String ResultRow × Option ℚ) (inj : MSInjection) :
    Except String (PyDict String ResultRow × Option ℚ) :=
  let analyte := layout.get_product inj.plate_position
  match inj.match_mol analyte with
  | some mz =>
    let pr? : Option ℚ :=
      match find_standard inj with
      | some s => some (mz.area / s.area * 100)
      | none => st.2
    match pr? with
    | none => Except.error "NameError"
    | some pr =>
      Except.ok (pySet st.1 inj.plate_position
        ⟨Quantity.cls (classify pr), FloatVal.num mz.rt, FloatVal.nan, some analyte⟩,
       some pr)
  | none => Except.ok (pySet st.1 inj.plate_position nanRow, st.2)

/-- Loop of the claimed fixed specialization. -/
def msys_fold (layout : Layout) : List (String × MSInjection) →
    PyDict String ResultRow × Option ℚ →
    Except String (PyDict String ResultRow × Option ℚ)
  | [], st => Except.ok st
  | nv :: rest, st =>
    match ms_yield_area_standard_step layout st nv.2 with
    | Except.ok st2 => msys_fold layout rest st2
    | Except.error e => Except.error e

/-- The claimed fixed specialization of the whole MS-only plate computation:
yield mode, area quantity, standard reference. -/
def ms_yield_area_standard_plate (ms_sequence : List (String × MSInjection))
    (layout : Layout) : Except String PlateResult :=
  match msys_fold layout ms_sequence ([], none) with
  | Except.ok st =>
    Except.ok ⟨(List.range layout.shape.1).map (fun i => Char.ofNat (65 + i)),
               (List.range layout.shape.2).map (fun i => i + 1), st.1⟩
  | Except.error e => Except.error e


/-! ## Peak detection (pygecko/gc_tools/peak/peak_detection_ms.py)

The scipy calls (`find_peaks`, `simpson`) are external library collaborators
and are modelled as function parameters; every in-repository computation
(retention times, scaling, borders, slicing, nearest-index selection, spectrum
attribution, rounding, normalization, dict assembly) is modelled from the
source. -/

/-- Modelled from the spec: `Utilities.check_interval` is imported by
peak_detection_ms.py from pygecko.gc_tools.utilities, which is not among the
sources under study. Spec section 4.2: a channel-peak index is attributed to a
primary peak whose index lies within a tolerance window of plus/minus `tol`
samples. -/
def check_interval (a b tol : ℕ) : Bool := decide (a ≤ b + tol) && decide (b ≤ a + tol)

/-- The mass traces of a chromatogram (the pandas DataFrame `scans`): the time
index in milliseconds and one intensity trace per monitored m/z value. -/
structure Scans where
  index : List ℚ
  traces : List (ℚ × List ℚ)

/-- `rts = scans.index.to_numpy() / 60000` (line 100): the scans index
converted from milliseconds to minutes. -/
def scan_rts (scans : Scans) : List ℚ := scans.index.map (fun t => t / 60000)

/-- Nested lookup `mass_spectrums[k][m]` into the spectra dict. -/
def pyGet2? (d : PyDict ℚ (PyDict ℚ ℚ)) (k m : ℚ) : Option ℚ :=
  match pyGet? d k with
  | some inner => pyGet? inner m
  | none => none

/-- One attribution attempt of Peak_Detection_MS.__extract_mass_spectrum
(lines 105-106): if the channel-peak index lies within the tolerance window of
the primary peak index, record trace id ↦ channel intensity at the PRIMARY
peak index into the spectrum keyed by the primary peak's retention time (a
KeyError, modelled by `none`, if that retention time is not a spectrum key). -/
def attribute_one (rts : List ℚ) (m : ℚ) (sig : List ℚ) (pk : ℕ)
    (d : PyDict ℚ (PyDict ℚ ℚ)) (idx : ℕ) : Option (PyDict ℚ (PyDict ℚ ℚ)) :=
  if check_interval idx pk 5 then
    match pyGet? d (rts.getD pk 0) with
    | some inner => some (pySet d (rts.getD pk 0) (pySet inner m (sig.getD pk 0)))
    | none => none
  else some d

/-- Inner loop of __extract_mass_spectrum over the detected channel-peak
indices, for one primary peak index (line 104). -/
def attribute_idx (rts : List ℚ) (m : ℚ) (sig : List ℚ) (pk : ℕ) :
    List ℕ → PyDict ℚ (PyDict ℚ ℚ) → Option (PyDict ℚ (PyDict ℚ ℚ))
  | [], d => some d
  | idx :: rest, d =>
    match attribute_one rts m sig pk d idx with
    | some d2 => attribute_idx rts m sig pk rest d2
    | none => none

/-- Outer loop of __extract_mass_spectrum over the primary peak indices, for
one mass trace (line 103). -/
def attribute_trace (rts : List ℚ) (m : ℚ) (sig : List ℚ) (indices : List ℕ) :
    List ℕ → PyDict ℚ (PyDict ℚ ℚ) → Option (PyDict ℚ (PyDict ℚ ℚ))
  | [], d => some d
  | pk :: rest, d =>
    match attribute_idx rts m sig pk indices d with
    | some d2 => attribute_trace rts m sig indices rest d2
    | none => none

/-- Loop of __extract_mass_spectrum over the mass traces (line 99); each
trace is peak-picked by the external scipy find_peaks with the popped
trace_prominence setting (default 220), absorbed into `find_peaks_trace`. -/
def extract_traces (find_peaks_trace : List ℚ → List ℕ) (rts : List ℚ)
    (peak_indices : List ℕ) :
    List (ℚ × List ℚ) → PyDict ℚ (PyDict ℚ ℚ) → Option (PyDict ℚ (PyDict ℚ ℚ))
  | [], d => some d
  | tr :: rest, d =>
    match attribute_trace rts tr.1 tr.2 (find_peaks_trace tr.2) peak_indices d with
    | some d2 => extract_traces find_peaks_trace rts peak_indices rest d2
    | none => none

/-- Peak_Detection_MS.__extract_mass_spectrum (lines 78-107): the spectra
dict is pre-seeded with one empty spectrum per primary retention time, then
every mass trace is locally peak-picked and attributed. -/
def extract_mass_spectrum (find_peaks_trace : List ℚ → List ℕ) (scans : Scans)
    (peak_rts : List ℚ) (peak_indices : List ℕ) : Option (PyDict ℚ (PyDict ℚ ℚ)) :=
  let init := peak_rts.foldl (fun d i => pySet d i ([] : PyDict ℚ ℚ)) []
  extract_traces find_peaks_trace (scan_rts scans) peak_indices scans.traces init

/-- Python's round to the nearest integer: halves go to the even integer. -/
def pyRoundInt (x : ℚ) : ℤ :=
  let n := ⌊x⌋
  let f := x - n
  if f < 1/2 then n
  else if 1/2 < f then n + 1
  else if n % 2 = 0 then n else n + 1

/-- Python `round(x, 3)` (line 132): round half to even at 3 decimal places. -/
def pyRound3 (x : ℚ) : ℚ := (pyRoundInt (x * 1000) : ℚ) / 1000

/-- The Peak entity assembled by Peak_Detection_MS.__initialize_peaks: rounded
retention time, height, width, border times, mass-spectrum triples
(mz, intensity, relative intensity), and area. -/
structure MSPeakEntity where
  rt : ℚ
  height : ℚ
  width : ℚ
  boarders : ℚ × ℚ
  mass_spectrum : List (ℚ × ℚ × ℚ)
  area : ℚ
deriving DecidableEq

/-- np.max of a list of intensities; meaningful only for nonempty input —
np.max of an empty sequence raises ValueError, which the caller models. -/
def listMax : List ℚ → ℚ
  | [] => 0
  | [x] => x
  | x :: y :: xs => max x (listMax (y :: xs))

/-- One iteration of Peak_Detection_MS.__initialize_peaks (lines 131-140):
round the retention time to 3 decimals, look the unrounded retention time up
in the spectra dict (KeyError if absent), normalise the spectrum intensities
to 100 times their ratio against the maximum — `np.max` of an empty intensity
sequence raises ValueError — and assemble the Peak entity. -/
def initialize_peak (mass_spectra : PyDict ℚ (PyDict ℚ ℚ)) (rt h w : ℚ)
    (b : ℚ × ℚ) (area : ℚ) : Except String MSPeakEntity :=
  let rt_min := pyRound3 rt
  match pyGet? mass_spectra rt with
  | none => Except.error "KeyError"
  | some spec =>
    let intensities := spec.map Prod.snd
    if intensities.isEmpty then Except.error "ValueError"
    else
      let mx := listMax intensities
      let rel_intensities := intensities.map (fun i => i / mx * 100)
      let l := (spec.map Prod.fst).zip (intensities.zip rel_intensities)
      Except.ok ⟨rt_min, h, w, b, l.map (fun p => (p.1, p.2.1, p.2.2)), area⟩

/-- The loop of Peak_Detection_MS.__initialize_peaks over the enumerated
retention times, keying each Peak entity by its rounded retention time. -/
def ip_fold (peak_rts peak_heights peak_widths : List ℚ)
    (peak_boarders : List (ℚ × ℚ)) (mass_spectra : PyDict ℚ (PyDict ℚ ℚ))
    (peak_areas : List ℚ) :
    List ℕ → PyDict ℚ MSPeakEntity → Except String (PyDict ℚ MSPeakEntity)
  | [], peaks => Except.ok peaks
  | i :: rest, peaks =>
    match initialize_peak mass_spectra (peak_rts.getD i 0) (peak_heights.getD i 0)
        (peak_widths.getD i 0) (peak_boarders.getD i (0, 0)) (peak_areas.getD i 0) with
    | Except.ok p =>
      ip_fold peak_rts peak_heights peak_widths peak_boarders mass_spectra peak_areas
        rest (pySet peaks p.rt p)
    | Except.error e => Except.error e

/-- Peak_Detection_MS.__initialize_peaks (lines 109-141). -/
def initialize_peaks (peak_rts peak_heights peak_widths : List ℚ)
    (peak_boarders : List (ℚ × ℚ)) (mass_spectra : PyDict ℚ (PyDict ℚ ℚ))
    (peak_areas : List ℚ) : Except String (PyDict ℚ MSPeakEntity) :=
  ip_fold peak_rts peak_heights peak_widths peak_boarders mass_spectra peak_areas
    (List.range peak_rts.length) []

/-- First index of a minimal element of a list; ties resolve to the first
occurrence, exactly as np.argmin does. -/
def firstMinIdx : List ℚ → ℕ
  | [] => 0
  | [_] => 0
  | x :: y :: xs =>
    let j := firstMinIdx (y :: xs)
    if x ≤ (y :: xs).getD j 0 then 0 else j + 1

/-- `np.abs(time_values - boarder).argmin()` (lines 161-162): the index of
the sample time nearest to a border time. -/
def nearest_idx (time_values : List ℚ) (b : ℚ) : ℕ :=
  firstMinIdx (time_values.map (fun t => |t - b|))

/-- The Python slice `y[s:e]`: elements s to e-1, clamped to the list. -/
def pySlice (y : List ℚ) (s e : ℕ) : List ℚ := (y.drop s).take (e - s)

/-- Peak_Detection_MS.__calculate_areas for one peak (lines 160-164): the
integration slice runs from the sample index nearest the left border time up
to (excluding) the sample index nearest the right border time; the
scipy.integrate.simpson integrator is external, modelled by the `simpson`
parameter. -/
def calculate_area (simpson : List ℚ → ℚ) (time_values intensities : List ℚ)
    (boarder : ℚ × ℚ) : ℚ :=
  simpson (pySlice intensities (nearest_idx time_values boarder.1)
    (nearest_idx time_values boarder.2))

/-- Peak_Detection_MS.__calculate_areas (lines 143-165). -/
def calculate_areas (simpson : List ℚ → ℚ) (time_values intensities : List ℚ)
    (boarders : List (ℚ × ℚ)) : List ℚ :=
  boarders.map (calculate_area simpson time_values intensities)

/-- Composite Simpson integration with unit sample spacing, as
scipy.integrate.simpson computes it for an odd number of samples; a trailing
even sample is closed with a trapezoid (every slice evaluated by a theorem in
this file has odd length, where the composite rule below is exactly scipy's
composite Simpson rule with dx = 1). -/
def simpson_impl : List ℚ → ℚ
  | [] => 0
  | [_] => 0
  | [a, b] => (a + b) / 2
  | a :: b :: c :: rest => (a + 4 * b + c) / 3 + simpson_impl (c :: rest)

/-- The outputs of the external scipy.signal.find_peaks call on the primary
chromatogram: indices, peak_heights, widths, left_ips, right_ips (computed
with rel_height = 1 under the height / prominence / width settings that
__detect_peaks_scipy resolves from the one-shot settings store). -/
structure FindPeaksResult where
  indices : List ℕ
  heights : List ℚ
  widths : List ℚ
  left_ips : List ℚ
  right_ips : List ℚ

/-- The outputs of Peak_Detection_MS.__detect_peaks_scipy. -/
structure DetectResult where
  indices : List ℕ
  rts : List ℚ
  heights : List ℚ
  widths : List ℚ
  boarders : List (ℚ × ℚ)
  areas : List ℚ
deriving DecidableEq

/-- Peak_Detection_MS.__detect_peaks_scipy (lines 41-76): widths are scaled
by the scan rate; the border sample offsets are scaled by the scan rate and
offset by the signal start time; areas integrate between the nearest sample
indices of each border pair; retention times are the time values at the
detected indices. The scipy find_peaks call, together with the resolved
height / prominence / width settings, is the external parameter `fp`. -/
def detect_peaks_scipy (fp : List ℚ → FindPeaksResult) (simpson : List ℚ → ℚ)
    (time intensities : List ℚ) (scan_rate : ℚ) : DetectResult :=
  let r := fp intensities
  let peak_widths := r.widths.map (fun w => w * scan_rate)
  let boarders := (r.left_ips.zip r.right_ips).map
    (fun p => (p.1 * scan_rate + time.getD 0 0, p.2 * scan_rate + time.getD 0 0))
  let areas := calculate_areas simpson time intensities boarders
  let rts := r.indices.map (fun i => time.getD i 0)
  ⟨r.indices, rts, r.heights, peak_widths, boarders, areas⟩

/-- Peak_Detection_MS.pick_peaks (lines 18-39): detect the primary peaks,
extract the per-peak mass spectra, and initialise the RT-keyed Peak entity
dict, which is returned unchanged. -/
def pick_peaks (fp : List ℚ → FindPeaksResult) (simpson : List ℚ → ℚ)
    (find_peaks_trace : List ℚ → List ℕ) (time intensities : List ℚ)
    (scan_rate : ℚ) (scans : Scans) : Except String (PyDict ℚ MSPeakEntity) :=
  let r := detect_peaks_scipy fp simpson time intensities scan_rate
  match extract_mass_spectrum find_peaks_trace scans r.rts r.indices with
  | none => Except.error "KeyError"
  | some spectra =>
    initialize_peaks r.rts r.heights r.widths r.boarders spectra r.areas

/-! ## Python dict lemmas -/

theorem pyGet?_isSome_iff {α β : Type} [DecidableEq α] (d : PyDict α β) (k : α) :
    (pyGet? d k).isSome ↔ k ∈ pyKeys d := by
  induction d with
  | nil => simp [pyGet?, pyKeys]
  | cons p rest ih =>
    by_cases h : p.1 = k
    · simp [pyGet?, pyKeys, h]
    · obtain ⟨k1, v1⟩ := p
      simp only at h
      simp only [pyGet?, if_neg h, pyKeys, List.map_cons, List.mem_cons]
      rw [ih]
      simp only [pyKeys]
      constructor
      · exact Or.inr
      · rintro (he | he)
        · exact absurd he.symm h
        · exact he

theorem pyGet?_pySet_self {α β : Type} [DecidableEq α] (d : PyDict α β) (k : α) (v : β) :
    pyGet? (pySet d k v) k = some v := by
  induction d with
  | nil => simp [pySet, pyGet?]
  | cons p rest ih =>
    obtain ⟨k1, v1⟩ := p
    by_cases h : k1 = k
    · simp [pySet, h, pyGet?]
    · simp [pySet, h, pyGet?, ih]

theorem pyGet?_pySet_ne {α β : Type} [DecidableEq α] (d : PyDict α β) (k k' : α) (v : β)
    (h : k' ≠ k) : pyGet? (pySet d k v) k' = pyGet? d k' := by
  have hne : ¬(k = k') := fun he => h he.symm
  induction d with
  | nil => simp [pySet, pyGet?, hne]
  | cons p rest ih =>
    obtain ⟨k1, v1⟩ := p
    by_cases h1 : k1 = k
    · subst h1
      simp [pySet, pyGet?, hne]
    · by_cases h2 : k1 = k'
      · subst h2
        simp [pySet, h, pyGet?]
      · simp [pySet, h1, pyGet?, h2, ih]

theorem pyKeys_pySet {α β : Type} [DecidableEq α] (d : PyDict α β) (k : α) (v : β) :
    pyKeys (pySet d k v) = if k ∈ pyKeys d then pyKeys d else pyKeys d ++ [k] := by
  induction d with
  | nil => simp [pySet, pyKeys]
  | cons p rest ih =>
    obtain ⟨k1, v1⟩ := p
    by_cases h : k1 = k
    · simp [pySet, h, pyKeys]
    · have hky : k ∈ pyKeys ((k1, v1) :: rest) ↔ k ∈ pyKeys rest := by
        simp only [pyKeys, List.map_cons, List.mem_cons]
        constructor
        · rintro (he | he)
          · exact absurd he.symm h
          · exact he
        · exact Or.inr
      by_cases hmem : k ∈ pyKeys rest
      · rw [if_pos (hky.mpr hmem)]
        simp only [pySet, if_neg h, pyKeys, List.map_cons]
        rw [show (pySet rest k v).map Prod.fst = pyKeys (pySet rest k v) from rfl, ih,
          if_pos hmem]
        rfl
      · rw [if_neg (fun hc => hmem (hky.mp hc))]
        simp only [pySet, if_neg h, pyKeys, List.map_cons]
        rw [show (pySet rest k v).map Prod.fst = pyKeys (pySet rest k v) from rfl, ih,
          if_neg hmem]
        rfl

theorem length_pySet_le {α β : Type} [DecidableEq α] (d : PyDict α β) (k : α) (v : β) :
    (pySet d k v).length ≤ d.length + 1 := by
  induction d with
  | nil => simp [pySet]
  | cons p rest ih =>
    obtain ⟨k1, v1⟩ := p
    by_cases h : k1 = k
    · simp [pySet, h]
    · simp only [pySet, if_neg h, List.length_cons]
      omega

theorem pyKeys_nodup_pySet {α β : Type} [DecidableEq α] (d : PyDict α β) (k : α) (v : β)
    (h : (pyKeys d).Nodup) : (pyKeys (pySet d k v)).Nodup := by
  rw [pyKeys_pySet]
  by_cases hk : k ∈ pyKeys d
  · simp [hk, h]
  · simp only [if_neg hk]
    exact List.Nodup.append h (List.nodup_singleton k) (by
      intro a ha hb
      simp at hb
      exact hk (hb ▸ ha))

/-- C5: on [0, 100] the qualitative classification is a total, non-overlapping
partition: "excellent" iff ratio ≥ 70, "good" iff 50 ≤ ratio < 70, "fair" iff
20 ≤ ratio < 50, "poor" iff 5 ≤ ratio < 20, "trace" iff ratio < 5; every ratio
gets exactly one class and boundary values fall in the upper class. -/
theorem C5_classification_partition (r : ℚ) (h0 : 0 ≤ r) (h1 : r ≤ 100) :
    (classify r = "excellent" ↔ 70 ≤ r) ∧
    (classify r = "good" ↔ 50 ≤ r ∧ r < 70) ∧
    (classify r = "fair" ↔ 20 ≤ r ∧ r < 50) ∧
    (classify r = "poor" ↔ 5 ≤ r ∧ r < 20) ∧
    (classify r = "trace" ↔ r < 5) ∧
    (classify r = "excellent" ∨ classify r = "good" ∨ classify r = "fair" ∨
      classify r = "poor" ∨ classify r = "trace") := by
  unfold classify
  split_ifs with ha hb hc hd
  · refine ⟨by simp [ha], ?_, ?_, ?_, ?_, by simp⟩
    · constructor
      · intro h
        exact absurd h (by decide)
      · intro ⟨_, h2⟩
        linarith
    · constructor
      · intro h
        exact absurd h (by decide)
      · intro ⟨_, h2⟩
        linarith
    · constructor
      · intro h
        exact absurd h (by decide)
      · intro ⟨_, h2⟩
        linarith
    · constructor
      · intro h
        exact absurd h (by decide)
      · intro h2
        linarith
  · push_neg at ha
    refine ⟨⟨fun h => absurd h (by decide), fun h => absurd h (by linarith)⟩,
      by simp [hb, ha], ?_, ?_, ?_, by simp⟩
    · constructor
      · intro h
        exact absurd h (by decide)
      · intro ⟨_, h2⟩
        linarith
    · constructor
      · intro h
        exact absurd h (by decide)
      · intro ⟨_, h2⟩
        linarith
    · constructor
      · intro h
        exact absurd h (by decide)
      · intro h2
        linarith
  · push_neg at ha hb
    refine ⟨⟨fun h => absurd h (by decide), fun h => absurd h (by linarith)⟩,
      ⟨fun h => absurd h (by decide), fun h => absurd h.1 (by linarith)⟩,
      by simp [hc, hb], ?_, ?_, by simp⟩
    · constructor
      · intro h
        exact absurd h (by decide)
      · intro ⟨_, h2⟩
        linarith
    · constructor
      · intro h
        exact absurd h (by decide)
      · intro h2
        linarith
  · push_neg at ha hb hc
    refine ⟨⟨fun h => absurd h (by decide), fun h => absurd h (by linarith)⟩,
      ⟨fun h => absurd h (by decide), fun h => absurd h.1 (by linarith)⟩,
      ⟨fun h => absurd h (by decide), fun h => absurd h.1 (by linarith)⟩,
      by simp [hd, hc], ?_, by simp⟩
    constructor
    · intro h
      exact absurd h (by decide)
    · intro h2
      linarith
  · push_neg at ha hb hc hd
    exact ⟨⟨fun h => absurd h (by decide), fun h => absurd h (by linarith)⟩,
      ⟨fun h => absurd h (by decide), fun h => absurd h.1 (by linarith)⟩,
      ⟨fun h => absurd h (by decide), fun h => absurd h.1 (by linarith)⟩,
      ⟨fun h => absurd h (by decide), fun h => absurd h.1 (by linarith)⟩,
      by simp [hd], by simp⟩

/-- C5 witness: ratio 70 lies in [0, 100] and is classified "excellent"
(boundary inclusive on the upper side), per the partition theorem. -/
theorem C5_classification_partition_witness :
    ((0 : ℚ) ≤ 70 ∧ (70 : ℚ) ≤ 100) ∧
    ((classify 70 = "excellent" ↔ 70 ≤ (70 : ℚ)) ∧
    (classify 70 = "good" ↔ 50 ≤ (70 : ℚ) ∧ (70 : ℚ) < 70) ∧
    (classify 70 = "fair" ↔ 20 ≤ (70 : ℚ) ∧ (70 : ℚ) < 50) ∧
    (classify 70 = "poor" ↔ 5 ≤ (70 : ℚ) ∧ (70 : ℚ) < 20) ∧
    (classify 70 = "trace" ↔ (70 : ℚ) < 5) ∧
    (classify 70 = "excellent" ∨ classify 70 = "good" ∨ classify 70 = "fair" ∨
      classify 70 = "poor" ∨ classify 70 = "trace")) :=
  ⟨⟨by norm_num, by norm_num⟩, C5_classification_partition 70 (by norm_num) (by norm_num)⟩

/-! ## Cross-modality orchestrator lemmas -/

theorem mq_fold_nil {fid_sequence : PyDict String FIDInjection} {layout : Layout}
    {mode : String} {index : ℕ} (d : PyDict String ResultRow) :
    mq_fold fid_sequence layout mode index [] d = Except.ok d := rfl

theorem mq_fold_cons {fid_sequence : PyDict String FIDInjection} {layout : Layout}
    {mode : String} {index : ℕ} (nv : String × MSInjection)
    (rest : List (String × MSInjection)) (d : PyDict String ResultRow) :
    mq_fold fid_sequence layout mode index (nv :: rest) d =
      (match match_well fid_sequence layout mode index nv.1 nv.2 with
       | Except.ok r => mq_fold fid_sequence layout mode index rest (pySet d r.1 r.2)
       | Except.error e => Except.error e) := rfl

theorem match_well_pos {fid_sequence : PyDict String FIDInjection} {layout : Layout}
    {mode : String} {index : ℕ} {name : String} {inj : MSInjection} {r : String × ResultRow}
    (h : match_well fid_sequence layout mode index name inj = Except.ok r) :
    r.1 = inj.plate_position := by
  unfold match_well at h
  cases hf : pyGet? fid_sequence name with
  | none => simp [hf] at h
  | some fid =>
    simp only [hf] at h
    cases ha : resolve_analyte layout mode index inj.plate_position with
    | none => simp [ha] at h
    | some analyte =>
      simp only [ha] at h
      cases hm : inj.match_mol analyte with
      | none =>
        simp only [hm, Except.ok.injEq] at h
        rw [← h]
      | some mz =>
        simp only [hm] at h
        cases hr : fid.match_ri mz.ri mz.analyte with
        | none =>
          simp only [hr, Except.ok.injEq] at h
          rw [← h]
        | some ri =>
          simp only [hr, Except.ok.injEq] at h
          rw [← h]

theorem mq_fold_preserve {fid_sequence : PyDict String FIDInjection} {layout : Layout}
    {mode : String} {index : ℕ} (L : List (String × MSInjection))
    (d d' : PyDict String ResultRow) (pos : String)
    (hok : mq_fold fid_sequence layout mode index L d = Except.ok d')
    (hpos : ∀ nv ∈ L, nv.2.plate_position ≠ pos) :
    pyGet? d' pos = pyGet? d pos := by
  induction L generalizing d with
  | nil =>
    rw [mq_fold_nil] at hok
    injection hok with h2
    rw [h2]
  | cons nv rest ih =>
    rw [mq_fold_cons] at hok
    cases hw : match_well fid_sequence layout mode index nv.1 nv.2 with
    | error e => simp [hw] at hok
    | ok r =>
      simp only [hw] at hok
      have hne : pos ≠ r.1 := by
        rw [match_well_pos hw]
        exact fun he => hpos nv (List.mem_cons_self nv rest) he.symm
      calc pyGet? d' pos
          = pyGet? (pySet d r.1 r.2) pos :=
            ih (pySet d r.1 r.2) hok (fun x hx => hpos x (List.mem_cons_of_mem _ hx))
        _ = pyGet? d pos := pyGet?_pySet_ne _ _ _ _ hne

theorem mq_fold_append {fid_sequence : PyDict String FIDInjection} {layout : Layout}
    {mode : String} {index : ℕ} (L1 L2 : List (String × MSInjection))
    (d : PyDict String ResultRow) :
    mq_fold fid_sequence layout mode index (L1 ++ L2) d =
      (match mq_fold fid_sequence layout mode index L1 d with
       | Except.ok d1 => mq_fold fid_sequence layout mode index L2 d1
       | Except.error e => Except.error e) := by
  induction L1 generalizing d with
  | nil => rw [List.nil_append, mq_fold_nil]
  | cons nv rest ih =>
    rw [List.cons_append, mq_fold_cons, mq_fold_cons]
    cases hw : match_well fid_sequence layout mode index nv.1 nv.2 with
    | ok r => exact ih _
    | error e => rfl

/-- The final dict entry for a well whose injection is the last one at its
plate position: exactly the row its own iteration wrote. -/
theorem match_and_quantify_entry {ms_sequence pre post : List (String × MSInjection)}
    {fid_sequence : PyDict String FIDInjection} {layout : Layout} {mode : String}
    {index : ℕ} {name : String} {inj : MSInjection} {row : ResultRow}
    {d : PyDict String ResultRow}
    (hsplit : ms_sequence = pre ++ (name, inj) :: post)
    (hpost : ∀ nv ∈ post, nv.2.plate_position ≠ inj.plate_position)
    (hwell : match_well fid_sequence layout mode index name inj =
      Except.ok (inj.plate_position, row))
    (hok : match_and_quantify ms_sequence fid_sequence layout mode index = Except.ok d) :
    pyGet? d inj.plate_position = some row := by
  subst hsplit
  unfold match_and_quantify at hok
  rw [mq_fold_append] at hok
  cases h1 : mq_fold fid_sequence layout mode index pre [] with
  | error e => rw [h1] at hok; cases hok
  | ok d0 =>
    simp only [h1, mq_fold_cons] at hok
    simp only [hwell] at hok
    have hpres := mq_fold_preserve post _ d inj.plate_position hok hpost
    rw [hpres, pyGet?_pySet_self]

/-! ## MS-only orchestrator lemmas -/

theorem msq_fold_nil {layout : Layout} {mode msqm relto : String} {index : ℕ}
    (st : PyDict String ResultRow × Option ℚ) :
    msq_fold layout mode msqm relto index [] st = Except.ok st := rfl

theorem msq_fold_cons {layout : Layout} {mode msqm relto : String} {index : ℕ}
    (nv : String × MSInjection) (rest : List (String × MSInjection))
    (st : PyDict String ResultRow × Option ℚ) :
    msq_fold layout mode msqm relto index (nv :: rest) st =
      (match ms_quantify_step layout mode msqm relto index st nv.2 with
       | Except.ok st2 => msq_fold layout mode msqm relto index rest st2
       | Except.error e => Except.error e) := rfl

theorem msq_step_preserve {layout : Layout} {mode msqm relto : String} {index : ℕ}
    {st st2 : PyDict String ResultRow × Option ℚ} {inj : MSInjection}
    (h : ms_quantify_step layout mode msqm relto index st inj = Except.ok st2)
    (pos : String) (hpos : pos ≠ inj.plate_position) :
    pyGet? st2.1 pos = pyGet? st.1 pos := by
  unfold ms_quantify_step at h
  cases ha : resolve_analyte_ms layout mode index inj.plate_position with
  | error e => simp [ha] at h
  | ok analyte =>
    simp only [ha] at h
    cases hm : inj.match_mol analyte with
    | none =>
      simp only [hm, Except.ok.injEq] at h
      rw [← h]
      exact pyGet?_pySet_ne _ _ _ _ hpos
    | some mz =>
      simp only [hm] at h
      cases hpr : (if relto = "all" then
          some (getAttr mz msqm / total_attr inj msqm * 100)
        else if relto = "standard" then
          match find_standard inj with
          | some s => some (getAttr mz msqm / getAttr s msqm * 100)
          | none => st.2
        else st.2) with
      | none =>
        simp only [hpr] at h
        exact Except.noConfusion h
      | some pr =>
        simp only [hpr] at h
        by_cases hc : mode = "conv"
        · rw [if_pos hc] at h; cases h
        · rw [if_neg hc] at h
          injection h with h2
          rw [← h2]
          exact pyGet?_pySet_ne _ _ _ _ hpos

theorem msq_fold_preserve {layout : Layout} {mode msqm relto : String} {index : ℕ}
    (L : List (String × MSInjection)) (st st' : PyDict String ResultRow × Option ℚ)
    (pos : String)
    (hok : msq_fold layout mode msqm relto index L st = Except.ok st')
    (hpos : ∀ nv ∈ L, nv.2.plate_position ≠ pos) :
    pyGet? st'.1 pos = pyGet? st.1 pos := by
  induction L generalizing st with
  | nil =>
    rw [msq_fold_nil] at hok
    injection hok with h2
    rw [h2]
  | cons nv rest ih =>
    rw [msq_fold_cons] at hok
    cases hw : ms_quantify_step layout mode msqm relto index st nv.2 with
    | error e => simp [hw] at hok
    | ok st2 =>
      simp only [hw] at hok
      calc pyGet? st'.1 pos
          = pyGet? st2.1 pos := ih st2 hok (fun x hx => hpos x (List.mem_cons_of_mem _ hx))
        _ = pyGet? st.1 pos :=
            msq_step_preserve hw pos (fun he => hpos nv (List.mem_cons_self nv rest) he.symm)

theorem msq_fold_append {layout : Layout} {mode msqm relto : String} {index : ℕ}
    (L1 L2 : List (String × MSInjection)) (st : PyDict String ResultRow × Option ℚ) :
    msq_fold layout mode msqm relto index (L1 ++ L2) st =
      (match msq_fold layout mode msqm relto index L1 st with
       | Except.ok st1 => msq_fold layout mode msqm relto index L2 st1
       | Except.error e => Except.error e) := by
  induction L1 generalizing st with
  | nil => rw [List.nil_append, msq_fold_nil]
  | cons nv rest ih =>
    rw [List.cons_append, msq_fold_cons, msq_fold_cons]
    cases hw : ms_quantify_step layout mode msqm relto index st nv.2 with
    | ok st2 => exact ih _
    | error e => rfl

/-- In the MS-only computation, a well whose m/z match fails and whose
injection is the last one at its plate position ends with the NaN row. -/
theorem ms_quantify_entry_nomatch {ms_sequence pre post : List (String × MSInjection)}
    {layout : Layout} {mode msqm relto : String} {index : ℕ} {name : String}
    {inj : MSInjection} {analyte : Analyte} {d : PyDict String ResultRow}
    (hsplit : ms_sequence = pre ++ (name, inj) :: post)
    (hpost : ∀ nv ∈ post, nv.2.plate_position ≠ inj.plate_position)
    (hres : resolve_analyte_ms layout mode index inj.plate_position = Except.ok analyte)
    (hnm : inj.match_mol analyte = none)
    (hok : ms_quantify ms_sequence layout mode msqm relto index = Except.ok d) :
    pyGet? d inj.plate_position = some nanRow := by
  subst hsplit
  unfold ms_quantify at hok
  rw [msq_fold_append] at hok
  cases h1 : msq_fold layout mode msqm relto index pre ([], none) with
  | error e => rw [h1] at hok; cases hok
  | ok st0 =>
    simp only [h1, msq_fold_cons] at hok
    have hstep : ms_quantify_step layout mode msqm relto index st0 inj =
        Except.ok (pySet st0.1 inj.plate_position nanRow, st0.2) := by
      unfold ms_quantify_step
      simp only [hres, hnm]
    simp only [hstep] at hok
    cases h2 : msq_fold layout mode msqm relto index post
        (pySet st0.1 inj.plate_position nanRow, st0.2) with
    | error e => rw [h2] at hok; cases hok
    | ok st3 =>
      simp only [h2] at hok
      injection hok with h3
      have hpres := msq_fold_preserve post _ st3 inj.plate_position h2 hpost
      rw [← h3, hpres]
      exact pyGet?_pySet_self _ _ _

/-! ## Claims C1, C3 (cross-modality quantification) -/

/-- C1: in cross-modality quantification, for every well whose MS match and
FID confirmation both succeed, the recorded quantity in conversion mode is
100 minus the FID-quantified percentage while in yield mode it is the
FID-quantified percentage unchanged; given the same underlying quantified
value in both modes, conversion = 100 − yield. -/
theorem C1_conversion_complement
    (ms_sequence pre post : List (String × MSInjection))
    (fid_sequence : PyDict String FIDInjection) (layout : Layout) (index : ℕ)
    (name : String) (inj : MSInjection) (fid : FIDInjection)
    (mzY mzC : MSPeak) (riY riC : FIDMatch) (dY dC : PyDict String ResultRow)
    (hsplit : ms_sequence = pre ++ (name, inj) :: post)
    (hpost : ∀ nv ∈ post, nv.2.plate_position ≠ inj.plate_position)
    (hfid : pyGet? fid_sequence name = some fid)
    (hmzY : inj.match_mol (layout.get_product inj.plate_position) = some mzY)
    (hriY : fid.match_ri mzY.ri mzY.analyte = some riY)
    (hmzC : inj.match_mol (layout.get_substrate inj.plate_position index) = some mzC)
    (hriC : fid.match_ri mzC.ri mzC.analyte = some riC)
    (hsame : fid.quantify riC.rt = fid.quantify riY.rt)
    (hY : match_and_quantify ms_sequence fid_sequence layout "yield" index = Except.ok dY)
    (hC : match_and_quantify ms_sequence fid_sequence layout "conv" index = Except.ok dC) :
    pyGet? dY inj.plate_position = some
      ⟨Quantity.num (fid.quantify riY.rt), FloatVal.num mzY.rt, FloatVal.num riY.rt,
       some (layout.get_product inj.plate_position)⟩ ∧
    pyGet? dC inj.plate_position = some
      ⟨Quantity.num (100 - fid.quantify riY.rt), FloatVal.num mzC.rt, FloatVal.num riC.rt,
       some (layout.get_substrate inj.plate_position index)⟩ := by
  constructor
  · apply match_and_quantify_entry hsplit hpost _ hY
    unfold match_well
    have hres : resolve_analyte layout "yield" index inj.plate_position =
        some (layout.get_product inj.plate_position) := rfl
    simp only [hfid, hres, hmzY, hriY]
    rfl
  · apply match_and_quantify_entry hsplit hpost _ hC
    unfold match_well
    have hres : resolve_analyte layout "conv" index inj.plate_position =
        some (layout.get_substrate inj.plate_position index) := rfl
    simp only [hfid, hres, hmzC, hriC, hsame]
    rfl

/-- C1 witness: a concrete one-well plate where both modalities match and the
FID quantification returns 80: yield mode records 80, conversion mode records
100 − 80, for the same underlying quantified value. -/
theorem C1_conversion_complement_witness :
    pyGet? [("A1", (⟨Quantity.num 80, FloatVal.num 2, FloatVal.num 6,
        some ⟨"prod", 100⟩⟩ : ResultRow))] "A1" = some
      ⟨Quantity.num 80, FloatVal.num 2, FloatVal.num 6, some ⟨"prod", 100⟩⟩ ∧
    pyGet? [("A1", (⟨Quantity.num (100 - 80), FloatVal.num 5, FloatVal.num 7,
        some ⟨"sub", 50⟩⟩ : ResultRow))] "A1" = some
      ⟨Quantity.num (100 - 80), FloatVal.num 5, FloatVal.num 7, some ⟨"sub", 50⟩⟩ :=
  C1_conversion_complement
    [("s1", ⟨"s1", "A1", [], fun a => if a.mz = 100 then some ⟨3, 2, 10, 20, none, ⟨"prod", 100⟩⟩
        else some ⟨4, 5, 1, 2, none, ⟨"sub", 50⟩⟩⟩)] [] []
    [("s1", ⟨fun ri _ => if ri = 3 then some ⟨6⟩ else some ⟨7⟩, fun _ => (80 : ℚ)⟩)]
    ⟨fun _ => ⟨"prod", 100⟩, fun _ _ => ⟨"sub", 50⟩, (8, 12)⟩ 0
    "s1" ⟨"s1", "A1", [], fun a => if a.mz = 100 then some ⟨3, 2, 10, 20, none, ⟨"prod", 100⟩⟩
        else some ⟨4, 5, 1, 2, none, ⟨"sub", 50⟩⟩⟩
    ⟨fun ri _ => if ri = 3 then some ⟨6⟩ else some ⟨7⟩, fun _ => (80 : ℚ)⟩
    ⟨3, 2, 10, 20, none, ⟨"prod", 100⟩⟩ ⟨4, 5, 1, 2, none, ⟨"sub", 50⟩⟩ ⟨6⟩ ⟨7⟩
    [("A1", ⟨Quantity.num 80, FloatVal.num 2, FloatVal.num 6, some ⟨"prod", 100⟩⟩)]
    [("A1", ⟨Quantity.num (100 - 80), FloatVal.num 5, FloatVal.num 7, some ⟨"sub", 50⟩⟩)]
    rfl (by intro nv h; cases h) rfl rfl rfl rfl rfl rfl rfl rfl

/-- C3: for every well whose MS match fails, and for every well whose FID
confirmation fails after an MS match, the orchestrator records the NaN row
(NaN quantity, NaN retention times, empty analyte label) in both
quantification modes — a recorded result, not an error; likewise the MS-only
computation records the NaN row when the MS match fails. -/
theorem C3_unmatched_nan_row
    (ms_sequence pre post ms_sequence2 pre2 post2 : List (String × MSInjection))
    (fid_sequence : PyDict String FIDInjection) (layout layout2 : Layout)
    (index index2 : ℕ) (mode2 msqm relto : String)
    (name name2 : String) (inj inj2 : MSInjection) (fid : FIDInjection)
    (analyte2 : Analyte) (dY dC d2 : PyDict String ResultRow)
    (hsplit : ms_sequence = pre ++ (name, inj) :: post)
    (hpost : ∀ nv ∈ post, nv.2.plate_position ≠ inj.plate_position)
    (hfid : pyGet? fid_sequence name = some fid)
    (hfailY : inj.match_mol (layout.get_product inj.plate_position) = none ∨
      (∃ mz, inj.match_mol (layout.get_product inj.plate_position) = some mz ∧
        fid.match_ri mz.ri mz.analyte = none))
    (hfailC : inj.match_mol (layout.get_substrate inj.plate_position index) = none ∨
      (∃ mz, inj.match_mol (layout.get_substrate inj.plate_position index) = some mz ∧
        fid.match_ri mz.ri mz.analyte = none))
    (hY : match_and_quantify ms_sequence fid_sequence layout "yield" index = Except.ok dY)
    (hC : match_and_quantify ms_sequence fid_sequence layout "conv" index = Except.ok dC)
    (hsplit2 : ms_sequence2 = pre2 ++ (name2, inj2) :: post2)
    (hpost2 : ∀ nv ∈ post2, nv.2.plate_position ≠ inj2.plate_position)
    (hres2 : resolve_analyte_ms layout2 mode2 index2 inj2.plate_position =
      Except.ok analyte2)
    (hnm2 : inj2.match_mol analyte2 = none)
    (hok2 : ms_quantify ms_sequence2 layout2 mode2 msqm relto index2 = Except.ok d2) :
    pyGet? dY inj.plate_position = some nanRow ∧
    pyGet? dC inj.plate_position = some nanRow ∧
    pyGet? d2 inj2.plate_position = some nanRow := by
  refine ⟨?_, ?_, ms_quantify_entry_nomatch hsplit2 hpost2 hres2 hnm2 hok2⟩
  · apply match_and_quantify_entry hsplit hpost _ hY
    unfold match_well
    have hres : resolve_analyte layout "yield" index inj.plate_position =
        some (layout.get_product inj.plate_position) := rfl
    simp only [hfid, hres]
    rcases hfailY with h1 | ⟨mz, h1, h2⟩
    · simp only [h1]
    · simp only [h1, h2]
  · apply match_and_quantify_entry hsplit hpost _ hC
    unfold match_well
    have hres : resolve_analyte layout "conv" index inj.plate_position =
        some (layout.get_substrate inj.plate_position index) := rfl
    simp only [hfid, hres]
    rcases hfailC with h1 | ⟨mz, h1, h2⟩
    · simp only [h1]
    · simp only [h1, h2]

/-- C3 witness: a concrete well whose MS match fails in yield mode and whose
FID confirmation fails in conversion mode gets the NaN row in both modes, and
a concrete MS-only well with no MS match gets the NaN row as well. -/
theorem C3_unmatched_nan_row_witness :
    pyGet? [("A1", nanRow)] "A1" = some nanRow ∧
    pyGet? [("A1", nanRow)] "A1" = some nanRow ∧
    pyGet? [("B2", nanRow)] "B2" = some nanRow :=
  C3_unmatched_nan_row
    [("s1", ⟨"s1", "A1", [], fun a => if a.mz = 100 then none
        else some ⟨4, 5, 1, 2, none, ⟨"sub", 50⟩⟩⟩)] [] []
    [("t1", ⟨"t1", "B2", [], fun _ => none⟩)] [] []
    [("s1", ⟨fun _ _ => none, fun _ => (80 : ℚ)⟩)]
    ⟨fun _ => ⟨"prod", 100⟩, fun _ _ => ⟨"sub", 50⟩, (8, 12)⟩
    ⟨fun _ => ⟨"prod", 100⟩, fun _ _ => ⟨"sub", 50⟩, (4, 6)⟩
    0 0 "yield" "area" "standard" "s1" "t1"
    ⟨"s1", "A1", [], fun a => if a.mz = 100 then none
        else some ⟨4, 5, 1, 2, none, ⟨"sub", 50⟩⟩⟩
    ⟨"t1", "B2", [], fun _ => none⟩
    ⟨fun _ _ => none, fun _ => (80 : ℚ)⟩
    ⟨"prod", 100⟩
    [("A1", nanRow)] [("A1", nanRow)] [("B2", nanRow)]
    rfl (by intro nv h; cases h) rfl
    (Or.inl rfl)
    (Or.inr ⟨⟨4, 5, 1, 2, none, ⟨"sub", 50⟩⟩, rfl, rfl⟩)
    rfl rfl
    rfl (by intro nv h; cases h) rfl rfl rfl

/-! ## Claim C2 (missing internal standard in MS-only quantification) -/

unseal Rat.mul Rat.inv Rat.add Rat.sub in
/-- C2 (refuting evaluation): the source does not skip a well with no
standard-flagged peak. With a single injection lacking a standard the
classification reads the never-assigned local `product_ratio` and the whole
plate computation aborts with a NameError; with a prior successful well, the
stale ratio of that well (40, class "fair") is reused and an entry IS written
for the standard-less well — it is not absent from the result dict. -/
theorem C2_missing_standard_crash_or_stale :
    ms_quantify [("s1", ⟨"s1", "A1", [(1, ⟨1, 1, 10, 20, none, ⟨"P", 100⟩⟩)],
        fun _ => some ⟨1, 1, 10, 20, none, ⟨"P", 100⟩⟩⟩)]
      ⟨fun _ => ⟨"P", 100⟩, fun _ _ => ⟨"S", 50⟩, (1, 1)⟩
      "yield" "area" "standard" 0 = Except.error "NameError" ∧
    ms_quantify
      [("s0", ⟨"s0", "A1", [(1, ⟨1, 1, 10, 20, none, ⟨"P", 100⟩⟩),
          (2, ⟨2, 2, 5, 50, some "standard", ⟨"P", 100⟩⟩)],
          fun _ => some ⟨1, 1, 10, 20, none, ⟨"P", 100⟩⟩⟩),
       ("s1", ⟨"s1", "B1", [(1, ⟨1, 1, 10, 20, none, ⟨"P", 100⟩⟩)],
          fun _ => some ⟨1, 1, 10, 20, none, ⟨"P", 100⟩⟩⟩)]
      ⟨fun _ => ⟨"P", 100⟩, fun _ _ => ⟨"S", 50⟩, (1, 2)⟩
      "yield" "area" "standard" 0 = Except.ok
      [("A1", ⟨Quantity.cls "fair", FloatVal.num 1, FloatVal.nan, some ⟨"P", 100⟩⟩),
       ("B1", ⟨Quantity.cls "fair", FloatVal.num 1, FloatVal.nan, some ⟨"P", 100⟩⟩)] := by
  constructor
  · rfl
  · decide

/-! ## Claim C10 (the public MS-only entry point is a fixed specialization) -/

theorem msys_fold_nil {layout : Layout} (st : PyDict String ResultRow × Option ℚ) :
    msys_fold layout [] st = Except.ok st := rfl

theorem msys_fold_cons {layout : Layout} (nv : String × MSInjection)
    (rest : List (String × MSInjection)) (st : PyDict String ResultRow × Option ℚ) :
    msys_fold layout (nv :: rest) st =
      (match ms_yield_area_standard_step layout st nv.2 with
       | Except.ok st2 => msys_fold layout rest st2
       | Except.error e => Except.error e) := rfl

theorem ms_quantify_step_yield_area_standard (layout : Layout)
    (st : PyDict String ResultRow × Option ℚ) (inj : MSInjection) :
    ms_quantify_step layout "yield" "area" "standard" 0 st inj =
      ms_yield_area_standard_step layout st inj := by
  unfold ms_quantify_step ms_yield_area_standard_step
  have hres : resolve_analyte_ms layout "yield" 0 inj.plate_position =
      Except.ok (layout.get_product inj.plate_position) := rfl
  simp only [hres]
  cases hm : inj.match_mol (layout.get_product inj.plate_position) with
  | none => rfl
  | some mz =>
    cases hs : find_standard inj with
    | some s => rfl
    | none =>
      cases h2 : st.2 with
      | none => simp only [hs, h2]; rfl
      | some pr => simp only [hs, h2]; rfl

/-- C10: the public MS-only entry point always invokes the MS-only
quantification with mode = yield, ms_quantification_mode = area and
relative_to = standard; for every input its result equals the fixed
specialization in which the conversion-complement, height-based, and
relative-to-all branches are absent. -/
theorem C10_ms_only_entry_is_fixed_specialization
    (ms_sequence : List (String × MSInjection)) (layout : Layout) :
    calc_plate_ms_only_yield ms_sequence layout =
      ms_yield_area_standard_plate ms_sequence layout := by
  have hfold : ∀ (L : List (String × MSInjection)) st,
      msq_fold layout "yield" "area" "standard" 0 L st = msys_fold layout L st := by
    intro L
    induction L with
    | nil => intro st; rfl
    | cons nv rest ih =>
      intro st
      rw [msq_fold_cons, msys_fold_cons, ms_quantify_step_yield_area_standard]
      cases ms_yield_area_standard_step layout st nv.2 with
      | ok st2 => exact ih st2
      | error e => rfl
  unfold calc_plate_ms_only_yield ms_only_quantify_plate ms_quantify
    ms_yield_area_standard_plate
  rw [hfold ms_sequence ([], none)]
  cases msys_fold layout ms_sequence ([], none) with
  | ok st => rfl
  | error e => rfl

/-! ## Claim C4 (empty mass spectrum breaks normalization) -/

/-- C4 (refuting evaluation): a primary peak to which no mass channel was
attributed has an empty spectrum, and Peak entity construction does NOT
complete: np.max of the empty intensity sequence raises ValueError (line 135
carries no guard), instead of leaving the relative intensities empty as the
claim requires. -/
theorem C4_empty_spectrum_normalization_raises :
    initialize_peaks [1] [2] [3] [(0, 1)] [((1 : ℚ), ([] : PyDict ℚ ℚ))] [5] =
      Except.error "ValueError" := rfl

/-! ## Claim C9 (rounded retention-time keys and silent replacement) -/

theorem initialize_peak_rt {mass_spectra : PyDict ℚ (PyDict ℚ ℚ)} {rt h w : ℚ}
    {b : ℚ × ℚ} {area : ℚ} {p : MSPeakEntity}
    (hp : initialize_peak mass_spectra rt h w b area = Except.ok p) :
    p.rt = pyRound3 rt := by
  unfold initialize_peak at hp
  cases hs : pyGet? mass_spectra rt with
  | none => simp [hs] at hp
  | some spec =>
    simp only [hs] at hp
    by_cases he : (spec.map Prod.snd).isEmpty
    · rw [if_pos he] at hp; cases hp
    · rw [if_neg he] at hp
      injection hp with h2
      rw [← h2]

theorem ip_fold_nil (rts hs ws : List ℚ) (bs : List (ℚ × ℚ))
    (spectra : PyDict ℚ (PyDict ℚ ℚ)) (as2 : List ℚ) (peaks : PyDict ℚ MSPeakEntity) :
    ip_fold rts hs ws bs spectra as2 [] peaks = Except.ok peaks := rfl

theorem ip_fold_cons (rts hs ws : List ℚ) (bs : List (ℚ × ℚ))
    (spectra : PyDict ℚ (PyDict ℚ ℚ)) (as2 : List ℚ) (i : ℕ) (rest : List ℕ)
    (peaks : PyDict ℚ MSPeakEntity) :
    ip_fold rts hs ws bs spectra as2 (i :: rest) peaks =
      (match initialize_peak spectra (rts.getD i 0) (hs.getD i 0) (ws.getD i 0)
          (bs.getD i (0, 0)) (as2.getD i 0) with
       | Except.ok p => ip_fold rts hs ws bs spectra as2 rest (pySet peaks p.rt p)
       | Except.error e => Except.error e) := rfl

theorem ip_fold_append (rts hs ws : List ℚ) (bs : List (ℚ × ℚ))
    (spectra : PyDict ℚ (PyDict ℚ ℚ)) (as2 : List ℚ) (I1 I2 : List ℕ)
    (peaks : PyDict ℚ MSPeakEntity) :
    ip_fold rts hs ws bs spectra as2 (I1 ++ I2) peaks =
      (match ip_fold rts hs ws bs spectra as2 I1 peaks with
       | Except.ok d1 => ip_fold rts hs ws bs spectra as2 I2 d1
       | Except.error e => Except.error e) := by
  induction I1 generalizing peaks with
  | nil => rw [List.nil_append, ip_fold_nil]
  | cons i rest ih =>
    rw [List.cons_append, ip_fold_cons, ip_fold_cons]
    cases initialize_peak spectra (rts.getD i 0) (hs.getD i 0) (ws.getD i 0)
        (bs.getD i (0, 0)) (as2.getD i 0) with
    | ok p => exact ih _
    | error e => rfl

theorem ip_fold_preserve {rts hs ws : List ℚ} {bs : List (ℚ × ℚ)}
    {spectra : PyDict ℚ (PyDict ℚ ℚ)} {as2 : List ℚ} (I : List ℕ)
    (peaks d' : PyDict ℚ MSPeakEntity) (k : ℚ)
    (hok : ip_fold rts hs ws bs spectra as2 I peaks = Except.ok d')
    (hk : ∀ i ∈ I, pyRound3 (rts.getD i 0) ≠ k) :
    pyGet? d' k = pyGet? peaks k := by
  induction I generalizing peaks with
  | nil =>
    rw [ip_fold_nil] at hok
    injection hok with h2
    rw [h2]
  | cons i rest ih =>
    rw [ip_fold_cons] at hok
    cases hp : initialize_peak spectra (rts.getD i 0) (hs.getD i 0) (ws.getD i 0)
        (bs.getD i (0, 0)) (as2.getD i 0) with
    | error e =>
      simp only [hp] at hok
      exact Except.noConfusion hok
    | ok p =>
      simp only [hp] at hok
      have hne : k ≠ p.rt := by
        rw [initialize_peak_rt hp]
        exact fun he => hk i (List.mem_cons_self i rest) he.symm
      calc pyGet? d' k
          = pyGet? (pySet peaks p.rt p) k :=
            ih _ hok (fun x hx => hk x (List.mem_cons_of_mem _ hx))
        _ = pyGet? peaks k := pyGet?_pySet_ne _ _ _ _ hne

theorem ip_fold_keys {rts hs ws : List ℚ} {bs : List (ℚ × ℚ)}
    {spectra : PyDict ℚ (PyDict ℚ ℚ)} {as2 : List ℚ} (I : List ℕ)
    (peaks d' : PyDict ℚ MSPeakEntity)
    (hok : ip_fold rts hs ws bs spectra as2 I peaks = Except.ok d') :
    ∀ k ∈ pyKeys d', k ∈ pyKeys peaks ∨ ∃ i ∈ I, k = pyRound3 (rts.getD i 0) := by
  induction I generalizing peaks with
  | nil =>
    rw [ip_fold_nil] at hok
    injection hok with h2
    subst h2
    exact fun k hk => Or.inl hk
  | cons i rest ih =>
    rw [ip_fold_cons] at hok
    cases hp : initialize_peak spectra (rts.getD i 0) (hs.getD i 0) (ws.getD i 0)
        (bs.getD i (0, 0)) (as2.getD i 0) with
    | error e =>
      simp only [hp] at hok
      exact Except.noConfusion hok
    | ok p =>
      simp only [hp] at hok
      intro k hk
      rcases ih _ hok k hk with hmem | ⟨i2, hi2, he⟩
      · rw [pyKeys_pySet] at hmem
        by_cases hin : p.rt ∈ pyKeys peaks
        · rw [if_pos hin] at hmem
          exact Or.inl hmem
        · rw [if_neg hin] at hmem
          rcases List.mem_append.mp hmem with hmem2 | hmem2
          · exact Or.inl hmem2
          · simp at hmem2
            exact Or.inr ⟨i, List.mem_cons_self i rest,
              by rw [hmem2, initialize_peak_rt hp]⟩
      · exact Or.inr ⟨i2, List.mem_cons_of_mem _ hi2, he⟩

theorem ip_fold_nodup {rts hs ws : List ℚ} {bs : List (ℚ × ℚ)}
    {spectra : PyDict ℚ (PyDict ℚ ℚ)} {as2 : List ℚ} (I : List ℕ)
    (peaks d' : PyDict ℚ MSPeakEntity)
    (hok : ip_fold rts hs ws bs spectra as2 I peaks = Except.ok d')
    (hnd : (pyKeys peaks).Nodup) : (pyKeys d').Nodup := by
  induction I generalizing peaks with
  | nil =>
    rw [ip_fold_nil] at hok
    injection hok with h2
    subst h2
    exact hnd
  | cons i rest ih =>
    rw [ip_fold_cons] at hok
    cases hp : initialize_peak spectra (rts.getD i 0) (hs.getD i 0) (ws.getD i 0)
        (bs.getD i (0, 0)) (as2.getD i 0) with
    | error e =>
      simp only [hp] at hok
      exact Except.noConfusion hok
    | ok p =>
      simp only [hp] at hok
      exact ih _ hok (pyKeys_nodup_pySet _ _ _ hnd)

theorem ip_fold_length {rts hs ws : List ℚ} {bs : List (ℚ × ℚ)}
    {spectra : PyDict ℚ (PyDict ℚ ℚ)} {as2 : List ℚ} (I : List ℕ)
    (peaks d' : PyDict ℚ MSPeakEntity)
    (hok : ip_fold rts hs ws bs spectra as2 I peaks = Except.ok d') :
    d'.length ≤ peaks.length + I.length := by
  induction I generalizing peaks with
  | nil =>
    rw [ip_fold_nil] at hok
    injection hok with h2
    subst h2
    simp
  | cons i rest ih =>
    rw [ip_fold_cons] at hok
    cases hp : initialize_peak spectra (rts.getD i 0) (hs.getD i 0) (ws.getD i 0)
        (bs.getD i (0, 0)) (as2.getD i 0) with
    | error e =>
      simp only [hp] at hok
      exact Except.noConfusion hok
    | ok p =>
      simp only [hp] at hok
      have h1 := ih _ hok
      have h2 := length_pySet_le peaks p.rt p
      simp only [List.length_cons]
      omega

theorem ip_fold_entry {rts hs ws : List ℚ} {bs : List (ℚ × ℚ)}
    {spectra : PyDict ℚ (PyDict ℚ ℚ)} {as2 : List ℚ} {I I1 I2 : List ℕ} {i : ℕ}
    (peaks d' : PyDict ℚ MSPeakEntity)
    (hI : I = I1 ++ i :: I2)
    (hlater : ∀ i2 ∈ I2, pyRound3 (rts.getD i2 0) ≠ pyRound3 (rts.getD i 0))
    (hok : ip_fold rts hs ws bs spectra as2 I peaks = Except.ok d') :
    ∃ p, initialize_peak spectra (rts.getD i 0) (hs.getD i 0) (ws.getD i 0)
        (bs.getD i (0, 0)) (as2.getD i 0) = Except.ok p ∧
      pyGet? d' (pyRound3 (rts.getD i 0)) = some p := by
  subst hI
  rw [ip_fold_append] at hok
  cases h1 : ip_fold rts hs ws bs spectra as2 I1 peaks with
  | error e => rw [h1] at hok; cases hok
  | ok d0 =>
    simp only [h1, ip_fold_cons] at hok
    cases hp : initialize_peak spectra (rts.getD i 0) (hs.getD i 0) (ws.getD i 0)
        (bs.getD i (0, 0)) (as2.getD i 0) with
    | error e =>
      simp only [hp] at hok
      exact Except.noConfusion hok
    | ok p =>
      simp only [hp] at hok
      refine ⟨p, rfl, ?_⟩
      rw [ip_fold_preserve I2 _ d' _ hok hlater, ← initialize_peak_rt hp,
        pyGet?_pySet_self]

/-- C9: the peak dict returned by pick_peaks is keyed by retention time
rounded to 3 decimals; it has at most one peak per rounded value; when a
later-enumerated peak rounds to the same retention time, it silently replaces
the earlier one (the entry at a rounded key is the peak built from the LAST
index with that rounded value); and the dict can hold no more peaks than were
detected. -/
theorem C9_pick_peaks_rounded_rt_keys
    (fp : List ℚ → FindPeaksResult) (simpson : List ℚ → ℚ)
    (find_peaks_trace : List ℚ → List ℕ) (time intensities : List ℚ)
    (scan_rate : ℚ) (scans : Scans) (r : DetectResult)
    (spectra : PyDict ℚ (PyDict ℚ ℚ)) (d : PyDict ℚ MSPeakEntity)
    (hr : detect_peaks_scipy fp simpson time intensities scan_rate = r)
    (hex : extract_mass_spectrum find_peaks_trace scans r.rts r.indices = some spectra)
    (hok : pick_peaks fp simpson find_peaks_trace time intensities scan_rate scans =
      Except.ok d) :
    (∀ k ∈ pyKeys d, ∃ i ∈ List.range r.rts.length, k = pyRound3 (r.rts.getD i 0)) ∧
    (pyKeys d).Nodup ∧
    (∀ j, j < r.rts.length →
      (∀ j2, j < j2 → j2 < r.rts.length →
        pyRound3 (r.rts.getD j2 0) ≠ pyRound3 (r.rts.getD j 0)) →
      ∃ p, initialize_peak spectra (r.rts.getD j 0) (r.heights.getD j 0)
          (r.widths.getD j 0) (r.boarders.getD j (0, 0)) (r.areas.getD j 0) =
          Except.ok p ∧
        pyGet? d (pyRound3 (r.rts.getD j 0)) = some p ∧
        p.rt = pyRound3 (r.rts.getD j 0)) ∧
    d.length ≤ r.rts.length := by
  have hok2 : initialize_peaks r.rts r.heights r.widths r.boarders spectra r.areas =
      Except.ok d := by
    unfold pick_peaks at hok
    rw [hr] at hok
    simp only [hex] at hok
    exact hok
  unfold initialize_peaks at hok2
  refine ⟨?_, ?_, ?_, ?_⟩
  · intro k hk
    rcases ip_fold_keys _ _ _ hok2 k hk with hmem | ⟨i, hi, he⟩
    · simp [pyKeys] at hmem
    · exact ⟨i, hi, he⟩
  · exact ip_fold_nodup _ _ _ hok2 List.nodup_nil
  · intro j hj hlater
    have hdecomp : List.range r.rts.length =
        List.range j ++ j :: (List.range (r.rts.length - (j + 1))).map (fun t => j + 1 + t) := by
      have h1 : j + 1 + (r.rts.length - (j + 1)) = r.rts.length := by omega
      calc List.range r.rts.length
          = List.range (j + 1 + (r.rts.length - (j + 1))) := by rw [h1]
        _ = List.range (j + 1) ++
            (List.range (r.rts.length - (j + 1))).map (fun t => j + 1 + t) :=
            List.range_add _ _
        _ = (List.range j ++ [j]) ++
            (List.range (r.rts.length - (j + 1))).map (fun t => j + 1 + t) := by
            rw [List.range_succ]
        _ = List.range j ++ j ::
            (List.range (r.rts.length - (j + 1))).map (fun t => j + 1 + t) := by
            rw [List.append_assoc, List.singleton_append]
    have hlater2 : ∀ i2 ∈ (List.range (r.rts.length - (j + 1))).map (fun t => j + 1 + t),
        pyRound3 (r.rts.getD i2 0) ≠ pyRound3 (r.rts.getD j 0) := by
      intro i2 hi2
      rcases List.mem_map.mp hi2 with ⟨t, ht, he⟩
      have ht2 := List.mem_range.mp ht
      exact hlater i2 (by omega) (by omega)
    rcases ip_fold_entry _ _ hdecomp hlater2 hok2 with ⟨p, hp1, hp2⟩
    exact ⟨p, hp1, hp2, initialize_peak_rt hp1⟩
  · have := ip_fold_length _ _ _ hok2
    simpa using this

unseal Rat.mul Rat.inv Rat.add Rat.sub in
/-- C9 witness: two detected peaks at retention times 2501/2500 (= 1.0004) and
2001/2000 (= 1.0005) both round to key 1 (the second by round-half-to-even);
the returned dict holds a single entry — the later-constructed peak (height
20) silently replaced the earlier one — so it has fewer peaks than were
detected. -/
theorem C9_pick_peaks_rounded_rt_keys_witness :
    ((∀ k ∈ pyKeys [((1 : ℚ),
          (⟨1, 20, 0, (0, 0), [(55, 7, 100)], 0⟩ : MSPeakEntity))],
        ∃ i ∈ List.range ([(2501 : ℚ)/2500, 2001/2000] : List ℚ).length,
          k = pyRound3 (([(2501 : ℚ)/2500, 2001/2000] : List ℚ).getD i 0)) ∧
     (pyKeys [((1 : ℚ),
          (⟨1, 20, 0, (0, 0), [(55, 7, 100)], 0⟩ : MSPeakEntity))]).Nodup ∧
     (∀ j, j < ([(2501 : ℚ)/2500, 2001/2000] : List ℚ).length →
       (∀ j2, j < j2 → j2 < ([(2501 : ℚ)/2500, 2001/2000] : List ℚ).length →
         pyRound3 (([(2501 : ℚ)/2500, 2001/2000] : List ℚ).getD j2 0) ≠
           pyRound3 (([(2501 : ℚ)/2500, 2001/2000] : List ℚ).getD j 0)) →
       ∃ p, initialize_peak
           [((2501 : ℚ)/2500, [((55 : ℚ), (6 : ℚ))]), (2001/2000, [(55, 7)])]
           (([(2501 : ℚ)/2500, 2001/2000] : List ℚ).getD j 0)
           (([(10 : ℚ), 20] : List ℚ).getD j 0)
           (([(0 : ℚ), 0] : List ℚ).getD j 0)
           (([((0 : ℚ), (0 : ℚ)), (0, 0)] : List (ℚ × ℚ)).getD j (0, 0))
           (([(0 : ℚ), 0] : List ℚ).getD j 0) = Except.ok p ∧
         pyGet? [((1 : ℚ), (⟨1, 20, 0, (0, 0), [(55, 7, 100)], 0⟩ : MSPeakEntity))]
           (pyRound3 (([(2501 : ℚ)/2500, 2001/2000] : List ℚ).getD j 0)) = some p ∧
         p.rt = pyRound3 (([(2501 : ℚ)/2500, 2001/2000] : List ℚ).getD j 0)) ∧
     ([((1 : ℚ), (⟨1, 20, 0, (0, 0), [(55, 7, 100)], 0⟩ : MSPeakEntity))] :
        PyDict ℚ MSPeakEntity).length ≤
       ([(2501 : ℚ)/2500, 2001/2000] : List ℚ).length) ∧
    ([((1 : ℚ), (⟨1, 20, 0, (0, 0), [(55, 7, 100)], 0⟩ : MSPeakEntity))] :
       PyDict ℚ MSPeakEntity).length <
      ([(2501 : ℚ)/2500, 2001/2000] : List ℚ).length :=
  ⟨C9_pick_peaks_rounded_rt_keys
    (fun _ => ⟨[1, 2], [10, 20], [0, 0], [0, 0], [0, 0]⟩)
    simpson_impl
    (fun _ => [1])
    [0, 2501/2500, 2001/2000]
    [0, 10, 20]
    1
    ⟨[0, 60024, 60030], [(55, [5, 6, 7])]⟩
    ⟨[1, 2], [2501/2500, 2001/2000], [10, 20], [0, 0], [(0, 0), (0, 0)], [0, 0]⟩
    [((2501 : ℚ)/2500, [((55 : ℚ), (6 : ℚ))]), (2001/2000, [(55, 7)])]
    [((1 : ℚ), (⟨1, 20, 0, (0, 0), [(55, 7, 100)], 0⟩ : MSPeakEntity))]
    (by decide) (by decide) (by decide),
   by decide⟩

/-! ## Claims C7, C8 (peak area integration) -/

theorem firstMinIdx_cons2 (x y : ℚ) (xs : List ℚ) :
    firstMinIdx (x :: y :: xs) =
      if x ≤ (y :: xs).getD (firstMinIdx (y :: xs)) 0 then 0
      else firstMinIdx (y :: xs) + 1 := rfl

theorem firstMinIdx_lt_length : ∀ (l : List ℚ), l ≠ [] → firstMinIdx l < l.length
  | [], h => absurd rfl h
  | [_], _ => by simp [firstMinIdx]
  | x :: y :: xs, _ => by
    rw [firstMinIdx_cons2]
    by_cases hc : x ≤ (y :: xs).getD (firstMinIdx (y :: xs)) 0
    · rw [if_pos hc]
      simp only [List.length_cons]
      omega
    · rw [if_neg hc]
      have := firstMinIdx_lt_length (y :: xs) (by simp)
      simp only [List.length_cons] at this ⊢
      omega

theorem firstMinIdx_min : ∀ (l : List ℚ) (j : ℕ), j < l.length →
    l.getD (firstMinIdx l) 0 ≤ l.getD j 0
  | [], j, h => by simp at h
  | [x], j, h => by
    have : j = 0 := by simp at h; omega
    subst this
    simp [firstMinIdx]
  | x :: y :: xs, j, h => by
    rw [firstMinIdx_cons2]
    by_cases hc : x ≤ (y :: xs).getD (firstMinIdx (y :: xs)) 0
    · rw [if_pos hc]
      cases j with
      | zero => simp
      | succ j2 =>
        have h2 : j2 < (y :: xs).length := by
          simp only [List.length_cons] at h ⊢
          omega
        have hmin := firstMinIdx_min (y :: xs) j2 h2
        simp only [List.getD_cons_zero, List.getD_cons_succ]
        exact le_trans hc hmin
    · rw [if_neg hc]
      push_neg at hc
      cases j with
      | zero =>
        simp only [List.getD_cons_zero, List.getD_cons_succ]
        exact le_of_lt hc
      | succ j2 =>
        have h2 : j2 < (y :: xs).length := by
          simp only [List.length_cons] at h ⊢
          omega
        simp only [List.getD_cons_succ]
        exact firstMinIdx_min (y :: xs) j2 h2

theorem firstMinIdx_first : ∀ (l : List ℚ) (j : ℕ), j < firstMinIdx l →
    l.getD (firstMinIdx l) 0 < l.getD j 0
  | [], j, h => by simp [firstMinIdx] at h
  | [x], j, h => by simp [firstMinIdx] at h
  | x :: y :: xs, j, h => by
    rw [firstMinIdx_cons2] at h ⊢
    by_cases hc : x ≤ (y :: xs).getD (firstMinIdx (y :: xs)) 0
    · rw [if_pos hc] at h
      omega
    · rw [if_neg hc] at h ⊢
      push_neg at hc
      cases j with
      | zero =>
        simp only [List.getD_cons_zero, List.getD_cons_succ]
        exact hc
      | succ j2 =>
        have h2 : j2 < firstMinIdx (y :: xs) := by omega
        simp only [List.getD_cons_succ]
        exact firstMinIdx_first (y :: xs) j2 h2

theorem getD_map_q (f : ℚ → ℚ) : ∀ (l : List ℚ) (i : ℕ), i < l.length →
    (l.map f).getD i 0 = f (l.getD i 0)
  | [], i, h => by simp at h
  | x :: rest, 0, _ => by simp
  | x :: rest, i + 1, h => by
    simp only [List.map_cons, List.getD_cons_succ]
    exact getD_map_q f rest i (by simp only [List.length_cons] at h; omega)

theorem getD_map_boarder (f : ℚ × ℚ → ℚ) : ∀ (l : List (ℚ × ℚ)) (i : ℕ), i < l.length →
    (l.map f).getD i 0 = f (l.getD i (0, 0))
  | [], i, h => by simp at h
  | x :: rest, 0, _ => by simp
  | x :: rest, i + 1, h => by
    simp only [List.map_cons, List.getD_cons_succ]
    exact getD_map_boarder f rest i (by simp only [List.length_cons] at h; omega)

theorem nearest_idx_lt_length (time_values : List ℚ) (b : ℚ) (hne : time_values ≠ []) :
    nearest_idx time_values b < time_values.length := by
  have h1 : time_values.map (fun t => |t - b|) ≠ [] := by
    simp [hne]
  have h2 := firstMinIdx_lt_length _ h1
  rw [List.length_map] at h2
  exact h2

theorem nearest_idx_min (time_values : List ℚ) (b : ℚ) (hne : time_values ≠ [])
    (j : ℕ) (hj : j < time_values.length) :
    |time_values.getD (nearest_idx time_values b) 0 - b| ≤ |time_values.getD j 0 - b| := by
  have hs := nearest_idx_lt_length time_values b hne
  have h1 := firstMinIdx_min (time_values.map (fun t => |t - b|)) j
    (by rw [List.length_map]; exact hj)
  have he : firstMinIdx (time_values.map (fun t => |t - b|)) = nearest_idx time_values b :=
    rfl
  rw [he, getD_map_q _ _ _ hj, getD_map_q _ _ _ hs] at h1
  exact h1

/-- C7: for every peak, the stored area equals the (external) composite
Simpson integrator applied to the intensity slice between the two border
times, where the slice endpoints are exactly the sample indices nearest to
the left and right border times: each chosen index minimises the absolute
distance between its sample time and the border time. -/
theorem C7_area_is_simpson_between_nearest_indices
    (simpson : List ℚ → ℚ) (time_values intensities : List ℚ)
    (boarders : List (ℚ × ℚ)) (i : ℕ) (hi : i < boarders.length)
    (hne : time_values ≠ []) :
    (calculate_areas simpson time_values intensities boarders).getD i 0 =
      simpson (pySlice intensities
        (nearest_idx time_values (boarders.getD i (0, 0)).1)
        (nearest_idx time_values (boarders.getD i (0, 0)).2)) ∧
    nearest_idx time_values (boarders.getD i (0, 0)).1 < time_values.length ∧
    nearest_idx time_values (boarders.getD i (0, 0)).2 < time_values.length ∧
    (∀ j, j < time_values.length →
      |time_values.getD (nearest_idx time_values (boarders.getD i (0, 0)).1) 0 -
          (boarders.getD i (0, 0)).1| ≤
        |time_values.getD j 0 - (boarders.getD i (0, 0)).1|) ∧
    (∀ j, j < time_values.length →
      |time_values.getD (nearest_idx time_values (boarders.getD i (0, 0)).2) 0 -
          (boarders.getD i (0, 0)).2| ≤
        |time_values.getD j 0 - (boarders.getD i (0, 0)).2|) := by
  refine ⟨?_, nearest_idx_lt_length _ _ hne, nearest_idx_lt_length _ _ hne,
    nearest_idx_min _ _ hne, nearest_idx_min _ _ hne⟩
  unfold calculate_areas
  rw [getD_map_boarder _ _ _ hi]
  rfl

/-- C7 witness: a concrete signal where the borders (0, 2) select the
nearest indices 0 and 2, the slice is [1, 2], and the stored area is the
Simpson (here: trapezoid, two samples) value 3/2. -/
theorem C7_area_is_simpson_between_nearest_indices_witness :
    ((0 : ℕ) < 1 ∧ ([(0 : ℚ), 1, 2] : List ℚ) ≠ []) ∧
    ((calculate_areas simpson_impl [0, 1, 2] [1, 2, 3] [((0 : ℚ), (2 : ℚ))]).getD 0 0 =
      simpson_impl (pySlice [1, 2, 3]
        (nearest_idx [0, 1, 2] (([((0 : ℚ), (2 : ℚ))] : List (ℚ × ℚ)).getD 0 (0, 0)).1)
        (nearest_idx [0, 1, 2] (([((0 : ℚ), (2 : ℚ))] : List (ℚ × ℚ)).getD 0 (0, 0)).2)) ∧
    nearest_idx [0, 1, 2] (([((0 : ℚ), (2 : ℚ))] : List (ℚ × ℚ)).getD 0 (0, 0)).1 <
      ([(0 : ℚ), 1, 2] : List ℚ).length ∧
    nearest_idx [0, 1, 2] (([((0 : ℚ), (2 : ℚ))] : List (ℚ × ℚ)).getD 0 (0, 0)).2 <
      ([(0 : ℚ), 1, 2] : List ℚ).length ∧
    (∀ j, j < ([(0 : ℚ), 1, 2] : List ℚ).length →
      |([(0 : ℚ), 1, 2] : List ℚ).getD
          (nearest_idx [0, 1, 2] (([((0 : ℚ), (2 : ℚ))] : List (ℚ × ℚ)).getD 0 (0, 0)).1) 0 -
          (([((0 : ℚ), (2 : ℚ))] : List (ℚ × ℚ)).getD 0 (0, 0)).1| ≤
        |([(0 : ℚ), 1, 2] : List ℚ).getD j 0 -
          (([((0 : ℚ), (2 : ℚ))] : List (ℚ × ℚ)).getD 0 (0, 0)).1|) ∧
    (∀ j, j < ([(0 : ℚ), 1, 2] : List ℚ).length →
      |([(0 : ℚ), 1, 2] : List ℚ).getD
          (nearest_idx [0, 1, 2] (([((0 : ℚ), (2 : ℚ))] : List (ℚ × ℚ)).getD 0 (0, 0)).2) 0 -
          (([((0 : ℚ), (2 : ℚ))] : List (ℚ × ℚ)).getD 0 (0, 0)).2| ≤
        |([(0 : ℚ), 1, 2] : List ℚ).getD j 0 -
          (([((0 : ℚ), (2 : ℚ))] : List (ℚ × ℚ)).getD 0 (0, 0)).2|)) :=
  ⟨⟨by decide, by decide⟩,
   C7_area_is_simpson_between_nearest_indices simpson_impl [0, 1, 2] [1, 2, 3]
     [((0 : ℚ), (2 : ℚ))] 0 (by decide) (by decide)⟩

unseal Rat.mul Rat.inv Rat.add Rat.sub in
/-- C8 (counterexample): composite Simpson weights alternate with sample
parity, so widening both borders CAN decrease the computed area. The signal
[0, 0, 100, 0, 0, 0, 0] over times [0..6] is non-negative; borders (1, 4)
select the slice [0, 100, 0] with Simpson value 400/3, while the strictly
wider borders (0, 5) select [0, 0, 100, 0, 0] with Simpson value 200/3 <
400/3 (both slices have odd length, where the modelled integrator agrees with
scipy's composite Simpson rule). -/
theorem C8_widening_can_decrease_area :
    (∀ v ∈ ([0, 0, 100, 0, 0, 0, 0] : List ℚ), 0 ≤ v) ∧
    ((0 : ℚ) ≤ 1 ∧ (4 : ℚ) ≤ 5) ∧
    calculate_area simpson_impl [0, 1, 2, 3, 4, 5, 6] [0, 0, 100, 0, 0, 0, 0]
        ((0 : ℚ), (5 : ℚ)) <
      calculate_area simpson_impl [0, 1, 2, 3, 4, 5, 6] [0, 0, 100, 0, 0, 0, 0]
        ((1 : ℚ), (4 : ℚ)) :=
  ⟨by decide, ⟨by norm_num, by norm_num⟩, by decide⟩

theorem abs_closer_strict (x y c : ℚ) (hxy : x ≤ y) (h : |y - c| < |x - c|) :
    x + y < 2 * c := by
  rcases abs_cases (x - c) with ⟨e1, s1⟩ | ⟨e1, s1⟩ <;>
    rcases abs_cases (y - c) with ⟨e2, s2⟩ | ⟨e2, s2⟩ <;>
    rw [e1, e2] at h <;> linarith

theorem abs_closer_wide (x y c : ℚ) (hxy : x < y) (h : |x - c| ≤ |y - c|) :
    2 * c ≤ x + y := by
  rcases abs_cases (x - c) with ⟨e1, s1⟩ | ⟨e1, s1⟩ <;>
    rcases abs_cases (y - c) with ⟨e2, s2⟩ | ⟨e2, s2⟩ <;>
    rw [e1, e2] at h <;> linarith

theorem nearest_idx_monotone (time_values : List ℚ)
    (hs : time_values.Sorted (· ≤ ·)) (b1 b2 : ℚ) (hb : b1 ≤ b2) :
    nearest_idx time_values b1 ≤ nearest_idx time_values b2 := by
  by_contra hcon
  push_neg at hcon
  have hne : time_values ≠ [] := by
    rintro rfl
    simp [nearest_idx, firstMinIdx] at hcon
  have h1len : nearest_idx time_values b1 < time_values.length :=
    nearest_idx_lt_length _ _ hne
  have h2len : nearest_idx time_values b2 < time_values.length :=
    nearest_idx_lt_length _ _ hne
  have he1 : firstMinIdx (time_values.map (fun t => |t - b1|)) =
      nearest_idx time_values b1 := rfl
  have he2 : firstMinIdx (time_values.map (fun t => |t - b2|)) =
      nearest_idx time_values b2 := rfl
  have hstrict := firstMinIdx_first (time_values.map (fun t => |t - b1|))
    (nearest_idx time_values b2) (he1 ▸ hcon)
  rw [he1, getD_map_q _ _ _ h1len, getD_map_q _ _ _ h2len] at hstrict
  have hmin := firstMinIdx_min (time_values.map (fun t => |t - b2|))
    (nearest_idx time_values b1) (by rw [List.length_map]; exact h1len)
  rw [he2, getD_map_q _ _ _ h1len, getD_map_q _ _ _ h2len] at hmin
  have hxy : time_values.getD (nearest_idx time_values b2) 0 ≤
      time_values.getD (nearest_idx time_values b1) 0 := by
    rw [List.getD_eq_getElem _ _ h2len, List.getD_eq_getElem _ _ h1len]
    exact List.Sorted.rel_get_of_lt hs hcon
  have hxylt : time_values.getD (nearest_idx time_values b2) 0 <
      time_values.getD (nearest_idx time_values b1) 0 := by
    rcases lt_or_eq_of_le hxy with h | h
    · exact h
    · rw [h] at hstrict
      exact absurd hstrict (lt_irrefl _)
  have ha := abs_closer_strict _ _ _ hxy hstrict
  have hb2 := abs_closer_wide _ _ _ hxylt hmin
  linarith

/-- C8 (amended): the claim as stated is false — the counterexample above
widens both borders of a non-negative signal and the Simpson-computed area
strictly decreases. What does hold is that widening both borders never
shrinks the integration sample range the area computation selects: for a
time-sorted signal, moving the left border earlier does not increase its
nearest sample index, and moving the right border later does not decrease
its nearest sample index. -/
theorem C8_amended_border_range_monotone
    (time_values : List ℚ) (hs : time_values.Sorted (· ≤ ·))
    (b0 b1 b0w b1w : ℚ) (hL : b0w ≤ b0) (hR : b1 ≤ b1w) :
    nearest_idx time_values b0w ≤ nearest_idx time_values b0 ∧
    nearest_idx time_values b1 ≤ nearest_idx time_values b1w :=
  ⟨nearest_idx_monotone _ hs _ _ hL, nearest_idx_monotone _ hs _ _ hR⟩

/-- C8 amended witness: on the sorted times [0, 1, 2], widening the borders
(1, 1) to (0, 2) keeps the left nearest index from increasing and the right
nearest index from decreasing. -/
theorem C8_amended_border_range_monotone_witness :
    (([(0 : ℚ), 1, 2] : List ℚ).Sorted (· ≤ ·) ∧ (0 : ℚ) ≤ 1 ∧ (1 : ℚ) ≤ 2) ∧
    (nearest_idx [0, 1, 2] 0 ≤ nearest_idx [0, 1, 2] 1 ∧
     nearest_idx [0, 1, 2] 1 ≤ nearest_idx [0, 1, 2] 2) :=
  ⟨⟨by decide, by norm_num, by norm_num⟩,
   C8_amended_border_range_monotone [0, 1, 2] (by decide) 1 1 0 2
     (by norm_num) (by norm_num)⟩

/-! ## Claim C6 (spectrum attribution records the intensity at the primary index) -/

theorem attribute_idx_nil (rts : List ℚ) (m : ℚ) (sig : List ℚ) (pk : ℕ)
    (d : PyDict ℚ (PyDict ℚ ℚ)) : attribute_idx rts m sig pk [] d = some d := rfl

theorem attribute_idx_cons (rts : List ℚ) (m : ℚ) (sig : List ℚ) (pk idx : ℕ)
    (rest : List ℕ) (d : PyDict ℚ (PyDict ℚ ℚ)) :
    attribute_idx rts m sig pk (idx :: rest) d =
      (match attribute_one rts m sig pk d idx with
       | some d2 => attribute_idx rts m sig pk rest d2
       | none => none) := rfl

theorem attribute_trace_nil (rts : List ℚ) (m : ℚ) (sig : List ℚ) (indices : List ℕ)
    (d : PyDict ℚ (PyDict ℚ ℚ)) : attribute_trace rts m sig indices [] d = some d := rfl

theorem attribute_trace_cons (rts : List ℚ) (m : ℚ) (sig : List ℚ) (indices : List ℕ)
    (pk : ℕ) (rest : List ℕ) (d : PyDict ℚ (PyDict ℚ ℚ)) :
    attribute_trace rts m sig indices (pk :: rest) d =
      (match attribute_idx rts m sig pk indices d with
       | some d2 => attribute_trace rts m sig indices rest d2
       | none => none) := rfl

theorem extract_traces_nil (ft : List ℚ → List ℕ) (rts : List ℚ) (pks : List ℕ)
    (d : PyDict ℚ (PyDict ℚ ℚ)) : extract_traces ft rts pks [] d = some d := rfl

theorem extract_traces_cons (ft : List ℚ → List ℕ) (rts : List ℚ) (pks : List ℕ)
    (tr : ℚ × List ℚ) (rest : List (ℚ × List ℚ)) (d : PyDict ℚ (PyDict ℚ ℚ)) :
    extract_traces ft rts pks (tr :: rest) d =
      (match attribute_trace rts tr.1 tr.2 (ft tr.2) pks d with
       | some d2 => extract_traces ft rts pks rest d2
       | none => none) := rfl

theorem attribute_one_props {rts : List ℚ} {m : ℚ} {sig : List ℚ} {pk : ℕ}
    {d d2 : PyDict ℚ (PyDict ℚ ℚ)} {idx : ℕ}
    (h : attribute_one rts m sig pk d idx = some d2) :
    (∀ k, (pyGet? d2 k).isSome = (pyGet? d k).isSome) ∧
    (∀ k m2, m2 ≠ m → pyGet2? d2 k m2 = pyGet2? d k m2) ∧
    (∀ k v, pyGet2? d k m = some v → (k ≠ rts.getD pk 0 ∨ v = sig.getD pk 0) →
      pyGet2? d2 k m = some v) := by
  unfold attribute_one at h
  by_cases hc : check_interval idx pk 5 = true
  · rw [if_pos hc] at h
    cases hg : pyGet? d (rts.getD pk 0) with
    | none =>
      rw [hg] at h
      cases h
    | some inner =>
      simp only [hg] at h
      injection h with h2
      subst h2
      refine ⟨?_, ?_, ?_⟩
      · intro k
        by_cases hk : k = rts.getD pk 0
        · subst hk
          rw [pyGet?_pySet_self, hg]
          rfl
        · rw [pyGet?_pySet_ne _ _ _ _ hk]
      · intro k m2 hm2
        unfold pyGet2?
        by_cases hk : k = rts.getD pk 0
        · subst hk
          rw [pyGet?_pySet_self, hg]
          exact pyGet?_pySet_ne _ _ _ _ hm2
        · rw [pyGet?_pySet_ne _ _ _ _ hk]
      · intro k v hv hdisj
        unfold pyGet2? at hv ⊢
        by_cases hk : k = rts.getD pk 0
        · subst hk
          rw [pyGet?_pySet_self]
          rcases hdisj with hne | hveq
          · exact absurd rfl hne
          · subst hveq
            exact pyGet?_pySet_self _ _ _
        · rw [pyGet?_pySet_ne _ _ _ _ hk]
          exact hv
  · rw [if_neg hc] at h
    injection h with h2
    subst h2
    exact ⟨fun k => rfl, fun k m2 _ => rfl, fun k v hv _ => hv⟩

theorem attribute_one_some (m : ℚ) (sig : List ℚ) {rts : List ℚ} {pk : ℕ}
    {d : PyDict ℚ (PyDict ℚ ℚ)} (idx : ℕ)
    (hk : (pyGet? d (rts.getD pk 0)).isSome) :
    ∃ d2, attribute_one rts m sig pk d idx = some d2 := by
  unfold attribute_one
  by_cases hc : check_interval idx pk 5 = true
  · rw [if_pos hc]
    cases hg : pyGet? d (rts.getD pk 0) with
    | none => rw [hg] at hk; simp at hk
    | some inner => exact ⟨_, rfl⟩
  · rw [if_neg hc]
    exact ⟨d, rfl⟩

theorem attribute_one_write (m : ℚ) (sig : List ℚ) {rts : List ℚ} {pk : ℕ}
    {d : PyDict ℚ (PyDict ℚ ℚ)} {idx : ℕ} {inner : PyDict ℚ ℚ}
    (hc : check_interval idx pk 5 = true)
    (hg : pyGet? d (rts.getD pk 0) = some inner) :
    attribute_one rts m sig pk d idx =
      some (pySet d (rts.getD pk 0) (pySet inner m (sig.getD pk 0))) := by
  unfold attribute_one
  rw [if_pos hc, hg]

theorem attribute_idx_props {rts : List ℚ} {m : ℚ} {sig : List ℚ} {pk : ℕ} :
    ∀ (indices : List ℕ) (d d2 : PyDict ℚ (PyDict ℚ ℚ)),
    attribute_idx rts m sig pk indices d = some d2 →
    (∀ k, (pyGet? d2 k).isSome = (pyGet? d k).isSome) ∧
    (∀ k m2, m2 ≠ m → pyGet2? d2 k m2 = pyGet2? d k m2) ∧
    (∀ k v, pyGet2? d k m = some v → (k ≠ rts.getD pk 0 ∨ v = sig.getD pk 0) →
      pyGet2? d2 k m = some v)
  | [], d, d2, h => by
    rw [attribute_idx_nil] at h
    injection h with h2
    subst h2
    exact ⟨fun k => rfl, fun k m2 _ => rfl, fun k v hv _ => hv⟩
  | idx :: rest, d, d2, h => by
    rw [attribute_idx_cons] at h
    cases h1 : attribute_one rts m sig pk d idx with
    | none => rw [h1] at h; cases h
    | some d1 =>
      simp only [h1] at h
      have p1 := attribute_one_props h1
      have pr := attribute_idx_props rest d1 d2 h
      refine ⟨fun k => (pr.1 k).trans (p1.1 k), ?_, ?_⟩
      · intro k m2 hm2
        exact (pr.2.1 k m2 hm2).trans (p1.2.1 k m2 hm2)
      · intro k v hv hdisj
        exact pr.2.2 k v (p1.2.2 k v hv hdisj) hdisj

theorem attribute_idx_some (m : ℚ) (sig : List ℚ) {rts : List ℚ} {pk : ℕ} :
    ∀ (indices : List ℕ) (d : PyDict ℚ (PyDict ℚ ℚ)),
    (pyGet? d (rts.getD pk 0)).isSome →
    ∃ d2, attribute_idx rts m sig pk indices d = some d2
  | [], d, _ => ⟨d, rfl⟩
  | idx :: rest, d, hk => by
    rcases attribute_one_some m sig idx hk with ⟨d1, h1⟩
    have p1 := attribute_one_props h1
    have hk1 : (pyGet? d1 (rts.getD pk 0)).isSome := by
      rw [p1.1]
      exact hk
    rcases attribute_idx_some m sig rest d1 hk1 with ⟨d2, h2⟩
    refine ⟨d2, ?_⟩
    rw [attribute_idx_cons, h1]
    exact h2

theorem attribute_idx_writes (m : ℚ) (sig : List ℚ) {rts : List ℚ} {pk : ℕ} :
    ∀ (indices : List ℕ) (d : PyDict ℚ (PyDict ℚ ℚ)) (idx : ℕ),
    idx ∈ indices → check_interval idx pk 5 = true →
    (pyGet? d (rts.getD pk 0)).isSome →
    ∃ d2, attribute_idx rts m sig pk indices d = some d2 ∧
      pyGet2? d2 (rts.getD pk 0) m = some (sig.getD pk 0)
  | [], _, _, hmem, _, _ => absurd hmem (List.not_mem_nil _)
  | idx0 :: rest, d, idx, hmem, hc, hk => by
    rcases List.mem_cons.mp hmem with he | hmem2
    · subst he
      cases hg : pyGet? d (rts.getD pk 0) with
      | none => rw [hg] at hk; simp at hk
      | some inner =>
        have h1 := attribute_one_write m sig hc hg
        have hentry : pyGet2?
            (pySet d (rts.getD pk 0) (pySet inner m (sig.getD pk 0)))
            (rts.getD pk 0) m = some (sig.getD pk 0) := by
          unfold pyGet2?
          rw [pyGet?_pySet_self]
          exact pyGet?_pySet_self _ _ _
        have hk1 : (pyGet?
            (pySet d (rts.getD pk 0) (pySet inner m (sig.getD pk 0)))
            (rts.getD pk 0)).isSome := by
          rw [pyGet?_pySet_self]
          rfl
        rcases attribute_idx_some m sig rest _ hk1 with ⟨d2, h2⟩
        have p2 := attribute_idx_props rest _ d2 h2
        refine ⟨d2, ?_, ?_⟩
        · rw [attribute_idx_cons, h1]
          exact h2
        · exact p2.2.2 _ _ hentry (Or.inr rfl)
    · rcases attribute_one_some m sig idx0 hk with ⟨d1, h1⟩
      have p1 := attribute_one_props h1
      have hk1 : (pyGet? d1 (rts.getD pk 0)).isSome := by
        rw [p1.1]
        exact hk
      rcases attribute_idx_writes m sig rest d1 idx hmem2 hc hk1 with ⟨d2, h2, hent⟩
      refine ⟨d2, ?_, hent⟩
      rw [attribute_idx_cons, h1]
      exact h2

theorem attribute_trace_props {rts : List ℚ} {m : ℚ} {sig : List ℚ} {indices : List ℕ} :
    ∀ (pks : List ℕ) (d d2 : PyDict ℚ (PyDict ℚ ℚ)),
    attribute_trace rts m sig indices pks d = some d2 →
    (∀ k, (pyGet? d2 k).isSome = (pyGet? d k).isSome) ∧
    (∀ k m2, m2 ≠ m → pyGet2? d2 k m2 = pyGet2? d k m2) ∧
    (∀ k v, pyGet2? d k m = some v →
      (∀ pk ∈ pks, k = rts.getD pk 0 → v = sig.getD pk 0) →
      pyGet2? d2 k m = some v)
  | [], d, d2, h => by
    rw [attribute_trace_nil] at h
    injection h with h2
    subst h2
    exact ⟨fun k => rfl, fun k m2 _ => rfl, fun k v hv _ => hv⟩
  | pk0 :: rest, d, d2, h => by
    rw [attribute_trace_cons] at h
    cases h1 : attribute_idx rts m sig pk0 indices d with
    | none => rw [h1] at h; cases h
    | some d1 =>
      simp only [h1] at h
      have p1 := attribute_idx_props indices d d1 h1
      have pr := attribute_trace_props rest d1 d2 h
      refine ⟨fun k => (pr.1 k).trans (p1.1 k), ?_, ?_⟩
      · intro k m2 hm2
        exact (pr.2.1 k m2 hm2).trans (p1.2.1 k m2 hm2)
      · intro k v hv hall
        have hd1 : pyGet2? d1 k m = some v := by
          apply p1.2.2 k v hv
          by_cases hk : k = rts.getD pk0 0
          · exact Or.inr (hall pk0 (List.mem_cons_self pk0 rest) hk)
          · exact Or.inl hk
        exact pr.2.2 k v hd1 (fun pk2 hpk2 => hall pk2 (List.mem_cons_of_mem _ hpk2))

theorem attribute_trace_some (m : ℚ) (sig : List ℚ) (indices : List ℕ) {rts : List ℚ} :
    ∀ (pks : List ℕ) (d : PyDict ℚ (PyDict ℚ ℚ)),
    (∀ pk ∈ pks, (pyGet? d (rts.getD pk 0)).isSome) →
    ∃ d2, attribute_trace rts m sig indices pks d = some d2
  | [], d, _ => ⟨d, rfl⟩
  | pk0 :: rest, d, hk => by
    rcases attribute_idx_some m sig indices d (hk pk0 (List.mem_cons_self pk0 rest)) with
      ⟨d1, h1⟩
    have p1 := attribute_idx_props indices d d1 h1
    rcases attribute_trace_some m sig indices rest d1 (fun pk2 hpk2 => by
      rw [p1.1]
      exact hk pk2 (List.mem_cons_of_mem _ hpk2)) with ⟨d2, h2⟩
    refine ⟨d2, ?_⟩
    rw [attribute_trace_cons, h1]
    exact h2

theorem attribute_trace_writes (m : ℚ) (sig : List ℚ) (indices : List ℕ) {rts : List ℚ} :
    ∀ (pks : List ℕ) (d : PyDict ℚ (PyDict ℚ ℚ)) (pk idx : ℕ),
    pk ∈ pks → idx ∈ indices → check_interval idx pk 5 = true →
    (∀ pk2 ∈ pks, (pyGet? d (rts.getD pk2 0)).isSome) →
    (∀ pk2 ∈ pks, rts.getD pk2 0 = rts.getD pk 0 → sig.getD pk2 0 = sig.getD pk 0) →
    ∃ d2, attribute_trace rts m sig indices pks d = some d2 ∧
      pyGet2? d2 (rts.getD pk 0) m = some (sig.getD pk 0)
  | [], _, _, _, hmem, _, _, _, _ => absurd hmem (List.not_mem_nil _)
  | pk0 :: rest, d, pk, idx, hmem, hidx, hc, hkeys, hshare => by
    rcases List.mem_cons.mp hmem with he | hmem2
    · subst he
      rcases attribute_idx_writes m sig indices d idx hidx hc
        (hkeys pk (List.mem_cons_self pk rest)) with ⟨d1, h1, hent⟩
      have p1 := attribute_idx_props indices d d1 h1
      rcases attribute_trace_some m sig indices rest d1 (fun pk2 hpk2 => by
        rw [p1.1]
        exact hkeys pk2 (List.mem_cons_of_mem _ hpk2)) with ⟨d2, h2⟩
      have p2 := attribute_trace_props rest d1 d2 h2
      refine ⟨d2, ?_, ?_⟩
      · rw [attribute_trace_cons, h1]
        exact h2
      · apply p2.2.2 _ _ hent
        intro pk2 hpk2 hkeq
        exact (hshare pk2 (List.mem_cons_of_mem _ hpk2) hkeq.symm).symm
    · rcases attribute_idx_some m sig indices d
        (hkeys pk0 (List.mem_cons_self pk0 rest)) with ⟨d1, h1⟩
      have p1 := attribute_idx_props indices d d1 h1
      rcases attribute_trace_writes m sig indices rest d1 pk idx hmem2 hidx hc
        (fun pk2 hpk2 => by
          rw [p1.1]
          exact hkeys pk2 (List.mem_cons_of_mem _ hpk2))
        (fun pk2 hpk2 => hshare pk2 (List.mem_cons_of_mem _ hpk2)) with ⟨d2, h2, hent⟩
      refine ⟨d2, ?_, hent⟩
      rw [attribute_trace_cons, h1]
      exact h2

theorem extract_traces_some (ft : List ℚ → List ℕ) {rts : List ℚ} {pks : List ℕ} :
    ∀ (traces : List (ℚ × List ℚ)) (d : PyDict ℚ (PyDict ℚ ℚ)),
    (∀ pk ∈ pks, (pyGet? d (rts.getD pk 0)).isSome) →
    ∃ d2, extract_traces ft rts pks traces d = some d2 ∧
      (∀ k, (pyGet? d2 k).isSome = (pyGet? d k).isSome)
  | [], d, _ => ⟨d, rfl, fun k => rfl⟩
  | tr :: rest, d, hk => by
    rcases attribute_trace_some tr.1 tr.2 (ft tr.2) pks d hk with ⟨d1, h1⟩
    have p1 := attribute_trace_props pks d d1 h1
    rcases extract_traces_some ft rest d1 (fun pk2 hpk2 => by
      rw [p1.1]
      exact hk pk2 hpk2) with ⟨d2, h2, hkeys2⟩
    refine ⟨d2, ?_, fun k => (hkeys2 k).trans (p1.1 k)⟩
    rw [extract_traces_cons, h1]
    exact h2

theorem extract_traces_preserve {ft : List ℚ → List ℕ} {rts : List ℚ} {pks : List ℕ} :
    ∀ (traces : List (ℚ × List ℚ)) (d d2 : PyDict ℚ (PyDict ℚ ℚ)) (k m : ℚ) (v : ℚ),
    extract_traces ft rts pks traces d = some d2 →
    pyGet2? d k m = some v → m ∉ traces.map Prod.fst →
    pyGet2? d2 k m = some v
  | [], d, d2, k, m, v, h, hv, _ => by
    rw [extract_traces_nil] at h
    injection h with h2
    subst h2
    exact hv
  | tr :: rest, d, d2, k, m, v, h, hv, hm => by
    rw [extract_traces_cons] at h
    cases h1 : attribute_trace rts tr.1 tr.2 (ft tr.2) pks d with
    | none => rw [h1] at h; cases h
    | some d1 =>
      simp only [h1] at h
      have p1 := attribute_trace_props pks d d1 h1
      have hmne : m ≠ tr.1 := by
        intro he
        apply hm
        rw [List.map_cons, he]
        exact List.mem_cons_self _ _
      have hd1 : pyGet2? d1 k m = some v := by
        rw [p1.2.1 k m hmne]
        exact hv
      refine extract_traces_preserve rest d1 d2 k m v h hd1 ?_
      intro hc
      apply hm
      rw [List.map_cons]
      exact List.mem_cons_of_mem _ hc

theorem init_keys_some : ∀ (l : List ℚ) (d : PyDict ℚ (PyDict ℚ ℚ)) (k : ℚ),
    (k ∈ l ∨ (pyGet? d k).isSome) →
    (pyGet? (l.foldl (fun d i => pySet d i ([] : PyDict ℚ ℚ)) d) k).isSome
  | [], d, k, h => by
    rcases h with h | h
    · exact absurd h (List.not_mem_nil k)
    · simpa using h
  | i :: rest, d, k, h => by
    rw [List.foldl_cons]
    apply init_keys_some rest (pySet d i []) k
    rcases h with h | h
    · rcases List.mem_cons.mp h with he | hmem
      · subst he
        right
        rw [pyGet?_pySet_self]
        rfl
      · left
        exact hmem
    · right
      by_cases hk : k = i
      · subst hk
        rw [pyGet?_pySet_self]
        rfl
      · rw [pyGet?_pySet_ne _ _ _ _ hk]
        exact h

theorem extract_traces_append (ft : List ℚ → List ℕ) (rts : List ℚ) (pks : List ℕ)
    (L1 L2 : List (ℚ × List ℚ)) (d : PyDict ℚ (PyDict ℚ ℚ)) :
    extract_traces ft rts pks (L1 ++ L2) d =
      (match extract_traces ft rts pks L1 d with
       | some d1 => extract_traces ft rts pks L2 d1
       | none => none) := by
  induction L1 generalizing d with
  | nil => rw [List.nil_append, extract_traces_nil]
  | cons tr rest ih =>
    rw [List.cons_append, extract_traces_cons, extract_traces_cons]
    cases attribute_trace rts tr.1 tr.2 (ft tr.2) pks d with
    | some d1 => exact ih _
    | none => rfl

/-- C6: for every channel signal (with a trace id not repeated later), every
channel-peak index the local detection finds, and every primary peak index
within the tolerance window, the final spectra dict maps the primary peak's
retention time, for that channel, to the channel's intensity at the PRIMARY
peak's own index — not at the channel-peak's index. -/
theorem C6_intensity_recorded_at_primary_index
    (ft : List ℚ → List ℕ) (scans : Scans) (peak_rts : List ℚ)
    (peak_indices : List ℕ) (T1 T2 : List (ℚ × List ℚ)) (m : ℚ) (sig : List ℚ)
    (pk idx : ℕ) (d : PyDict ℚ (PyDict ℚ ℚ))
    (hT : scans.traces = T1 ++ (m, sig) :: T2)
    (hm2 : m ∉ T2.map Prod.fst)
    (hidx : idx ∈ ft sig)
    (hpk : pk ∈ peak_indices)
    (hint : check_interval idx pk 5 = true)
    (hkeys : ∀ pk2 ∈ peak_indices, (scan_rts scans).getD pk2 0 ∈ peak_rts)
    (hshare : ∀ pk2 ∈ peak_indices,
      (scan_rts scans).getD pk2 0 = (scan_rts scans).getD pk 0 →
      sig.getD pk2 0 = sig.getD pk 0)
    (hok : extract_mass_spectrum ft scans peak_rts peak_indices = some d) :
    pyGet2? d ((scan_rts scans).getD pk 0) m = some (sig.getD pk 0) := by
  unfold extract_mass_spectrum at hok
  rw [hT, extract_traces_append] at hok
  have hinit : ∀ pk2 ∈ peak_indices,
      (pyGet? (peak_rts.foldl (fun d i => pySet d i ([] : PyDict ℚ ℚ)) [])
        ((scan_rts scans).getD pk2 0)).isSome :=
    fun pk2 hpk2 => init_keys_some peak_rts [] _ (Or.inl (hkeys pk2 hpk2))
  cases h1 : extract_traces ft (scan_rts scans) peak_indices T1
      (peak_rts.foldl (fun d i => pySet d i ([] : PyDict ℚ ℚ)) []) with
  | none => rw [h1] at hok; cases hok
  | some d1 =>
    simp only [h1] at hok
    rcases extract_traces_some ft T1 _ hinit with ⟨d1x, h1x, hkeys1⟩
    have hd1 : d1x = d1 := by
      rw [h1x] at h1
      injection h1
    subst hd1
    rw [extract_traces_cons] at hok
    dsimp only at hok
    rcases attribute_trace_writes m sig (ft sig) peak_indices d1x pk idx hpk hidx hint
      (fun pk2 hpk2 => by
        rw [hkeys1]
        exact hinit pk2 hpk2) hshare with ⟨dm, hm1, hent⟩
    rw [hm1] at hok
    exact extract_traces_preserve T2 dm d _ m _ hok hent hm2

unseal Rat.mul Rat.inv Rat.add Rat.sub in
/-- C6 witness: one channel (m/z 55, intensities [5, 6, 7]) with a detected
channel-peak at index 1, one primary peak at index 1 (retention time 1
minute): the recorded spectrum entry is 6, the channel intensity at the
primary peak's own index. -/
theorem C6_intensity_recorded_at_primary_index_witness :
    pyGet2? [((1 : ℚ), [((55 : ℚ), (6 : ℚ))])]
        ((scan_rts ⟨[0, 60000, 120000], [(55, [5, 6, 7])]⟩).getD 1 0) 55 =
      some (([(5 : ℚ), 6, 7] : List ℚ).getD 1 0) :=
  C6_intensity_recorded_at_primary_index (fun _ => [1])
    ⟨[0, 60000, 120000], [(55, [5, 6, 7])]⟩ [1] [1] [] [] 55 [5, 6, 7] 1 1
    [((1 : ℚ), [((55 : ℚ), (6 : ℚ))])]
    rfl (by simp) (by decide) (by decide) (by decide)
    (by
      intro pk2 hpk2
      rw [List.mem_singleton.mp hpk2]
      decide)
    (by
      intro pk2 hpk2 h
      rw [List.mem_singleton.mp hpk2])
    (by decide)

end PyGecko
